import Mathlib

/-!
Verification of the trends analysis engine (`trends_analyzer.py`).

The engine is a rate-limited, cached aggregator over an external time-series
source.  We embed the module shallowly:

* `pandas.DataFrame` values (time-indexed numeric tables) become `Series`:
  a time index plus named numeric columns over `Rat`.
* The process-lifetime cache dictionary becomes an association list from
  cache keys to `(payload, timestamp)` pairs with Python-dict update
  semantics (`pyDictSet`).
* The external source (`pytrends`: `build_payload` followed by
  `interest_over_time`) becomes an `Oracle` function; `none` models an
  exception raised by the adapter, `some df` a successful tabular response.
* Wall-clock time (`time.time()`) is an explicit `now : Nat` in seconds,
  chosen by the environment; `time.sleep` is recorded as an effect.
* Side effects (`time.sleep`, the external call) are recorded in an explicit
  effect trace returned next to each result.  The diagnostic `print` calls
  of the source are not modelled; they are not observable to callers.
-/

namespace Trends

/-- A scalar argument of `_get_cache_key`: a string or Python `None`
(serialized by `json.dumps` as `null`). -/
inductive Atom where
  | astr (s : String)
  | anull
deriving DecidableEq

/-- One positional argument of `_get_cache_key`: in the source every argument
is a string, `None`, or a list of strings. -/
inductive KeyPart where
  | atom (a : Atom)
  | strlist (xs : List String)
deriving DecidableEq

/-- Shorthand for a string argument. -/
def jstr (s : String) : KeyPart := KeyPart.atom (Atom.astr s)

/-- Shorthand for a `None` argument (serialized as JSON `null`). -/
def jnull : KeyPart := KeyPart.atom Atom.anull

/-- A cache fingerprint. -/
abbrev CacheKey := List KeyPart

/-- `_get_cache_key(self, *args)`: the source computes
`hashlib.md5(json.dumps(args, sort_keys=True).encode()).hexdigest()`.
`json.dumps` is injective on the argument shapes that occur (tuples of
strings, `None`, and lists of strings), and the md5 hex digest is a fixed
collision-resistant function of the serialization, so cache-key identity is
faithfully modelled by the canonical argument tuple itself.  Note that
`sort_keys=True` sorts only the keys of JSON objects (dictionaries); no
dictionary occurs among the arguments, so list arguments are serialized in
exactly the order given. -/
def get_cache_key (args : List KeyPart) : CacheKey := args

/-- One row label of a `pandas` time index: the fields the engine reads
(`index.hour`, `index.dayofweek`, `index.date`).  `date` is an abstract
day ordinal. -/
structure Stamp where
  hour : Nat
  dayOfWeek : Nat
  date : Nat
deriving DecidableEq

/-- A `pandas.DataFrame` as used by the engine: a time index and named
numeric columns.  Every column is intended to have the same length as the
index. -/
structure Series where
  index : List Stamp
  cols : List (String × List Rat)
deriving DecidableEq

/-- `pd.DataFrame()`. -/
def emptySeries : Series := { index := [], cols := [] }

/-- Association-list lookup with decidable key equality (first match). -/
def alookup {α β : Type} [DecidableEq α] : List (α × β) → α → Option β
  | [], _ => none
  | (k1, v1) :: rest, k => if k1 = k then some v1 else alookup rest k

/-- Python dictionary assignment `d[k] = v`: updating an existing key keeps
its position, a new key is appended at the end (insertion order). -/
def pyDictSet {α β : Type} [DecidableEq α] : List (α × β) → α → β → List (α × β)
  | [], k, v => [(k, v)]
  | (k1, v1) :: rest, k, v =>
      if k1 = k then (k1, v) :: rest else (k1, v1) :: pyDictSet rest k v

/-- `df.empty`: a `DataFrame` is empty when it has no rows or no columns. -/
def Series.isEmpty (df : Series) : Bool := df.index.isEmpty || df.cols.isEmpty

/-- `c in df.columns`. -/
def Series.hasCol (df : Series) (c : String) : Bool := (alookup df.cols c).isSome

/-- `df[c]` (defaults to the empty column when absent; the engine only reads
columns it has checked for membership). -/
def Series.getCol (df : Series) (c : String) : List Rat := (alookup df.cols c).getD []

/-- Exact rational addition, written through `Rat.divInt` (the samples and
their statistics are modelled with exact rationals). -/
def radd (a b : Rat) : Rat :=
  Rat.divInt (a.num * b.den + b.num * a.den) ((a.den : Int) * b.den)

/-- Sum of a list of samples. -/
def rsum (l : List Rat) : Rat := l.foldr radd 0

/-- Mean of a numeric column (`.mean()`): sum divided by count; division by
zero only arises for an empty column, which the engine never averages. -/
def listMean (l : List Rat) : Rat :=
  Rat.divInt (rsum l).num ((rsum l).den * l.length)

/-- `df[c].mean()`. -/
def Series.colMean (df : Series) (c : String) : Rat := listMean (df.getCol c)

/-- Column assignment `df[c] = v` (in-place: existing column replaced at its
position, new column appended). -/
def Series.setCol (df : Series) (c : String) (v : List Rat) : Series :=
  { index := df.index, cols := pyDictSet df.cols c v }

/-- `df.drop(columns=[c])`. -/
def Series.dropCol (df : Series) (c : String) : Series :=
  { index := df.index, cols := df.cols.filter (fun kv => decide (kv.1 ≠ c)) }

/-- A value held by the cache dictionary: `fetch_trends_data` stores
`DataFrame`s, the two weight operations store weight dictionaries. -/
inductive Payload where
  | series (df : Series)
  | weights (w : List (String × Rat))
deriving DecidableEq

/-- Read a cached payload as a `DataFrame`.  Under every key shaped like a
fetch key only `Payload.series` values are ever stored, so the second branch
is unreachable in every run considered below. -/
def Payload.toSeries : Payload → Series
  | .series df => df
  | .weights _ => emptySeries

/-- Read a cached payload as a weight dictionary (same remark as
`Payload.toSeries`, with the roles of the key shapes exchanged). -/
def Payload.toWeights : Payload → List (String × Rat)
  | .series _ => []
  | .weights w => w

/-- `self._cache`: a Python dictionary mapping fingerprints to
`(data, timestamp)` pairs. -/
abbrev Cache := List (CacheKey × Payload × Nat)

/-- `self._cache_duration = 3600` seconds. -/
def cacheDuration : Nat := 3600

/-- `_get_from_cache(self, cache_key)`: return the stored data only while
`time.time() - timestamp < self._cache_duration`, else `None`.  (Nat
subtraction agrees with the Python float subtraction for the monotone clocks
considered here.) -/
def get_from_cache (cache : Cache) (k : CacheKey) (now : Nat) : Option Payload :=
  match alookup cache k with
  | some (d, ts) => if now - ts < cacheDuration then some d else none
  | none => none

/-- `_save_to_cache(self, cache_key, data)`:
`self._cache[cache_key] = (data, time.time())`. -/
def save_to_cache (cache : Cache) (k : CacheKey) (d : Payload) (now : Nat) : Cache :=
  pyDictSet cache k (d, now)

/-- An observable side effect of the engine: `time.sleep` (duration in
milliseconds) or one external query (`build_payload` +
`interest_over_time`). -/
inductive Effect where
  | sleep (ms : Nat)
  | externalCall (keywords : List String) (timeframe geo : String)
deriving DecidableEq

/-- The external source adapter: `none` models the adapter raising, `some`
a tabular response.  Modelled as a function: the adapter's reply may depend
on the query but is fixed during a scenario. -/
abbrev Oracle := List String → String → String → Option Series

/-- `sorted(keywords)` (Python's stable ascending sort). -/
def pySortedStr (l : List String) : List String :=
  List.insertionSort (fun a b : String => a ≤ b) l

/-- The fingerprint built by `fetch_trends_data`:
`self._get_cache_key('fetch', sorted(keywords), timeframe, geo)`. -/
def fetchKey (keywords : List String) (timeframe geo : String) : CacheKey :=
  get_cache_key [jstr "fetch", KeyPart.strlist (pySortedStr keywords), jstr timeframe, jstr geo]

/-- Post-processing of a successful response: when the frame is non-empty
and has an `isPartial` column, that column is dropped. -/
def processResponse (df : Series) : Series :=
  if df.isEmpty then df
  else if df.hasCol "isPartial" then df.dropCol "isPartial" else df

/-- `fetch_trends_data(self, keywords, timeframe='today 3-m', geo='KR')`.
Returns the frame together with the updated cache and the effect trace of
this call.  On a fresh cache entry the call returns it at once (no sleep, no
external call); on a miss it sleeps 0.5 s, truncates the keyword list to 5,
queries the adapter, strips `isPartial`, stores the result (also when the
response is empty) and returns it; if the adapter raises, the exception is
caught and an empty frame is returned with the cache untouched. -/
def fetch_trends_data (oracle : Oracle) (now : Nat) (cache : Cache)
    (keywords : List String) (timeframe geo : String) :
    Series × Cache × List Effect :=
  let key := fetchKey keywords timeframe geo
  match get_from_cache cache key now with
  | some p => (p.toSeries, cache, [])
  | none =>
      let kws := keywords.take 5
      let eff := [Effect.sleep 500, Effect.externalCall kws timeframe geo]
      match oracle kws timeframe geo with
      | none => (emptySeries, cache, eff)
      | some resp =>
          let df := processResponse resp
          (df, save_to_cache cache key (Payload.series df) now, eff)

/-- The static keyword taxonomy (`keywords_config.py`, imported by the
module but external read-only configuration): a mapping from category to its
ordered keyword list and an ordered list of category names.  Modelled as a
parameter. -/
structure Config where
  PRODUCT_KEYWORDS : List (String × List String)
  PRODUCT_CATEGORIES : List String

/-- `PRODUCT_KEYWORDS[cat]`.  Python raises `KeyError` for a missing
category; theorems whose meaning depends on that distinction carry the
well-formedness hypothesis that every category they iterate is present. -/
def kwLookup (cfg : Config) (cat : String) : List String :=
  (alookup cfg.PRODUCT_KEYWORDS cat).getD []

/-- The `for category in PRODUCT_CATEGORIES` loop of `analyze_by_category`:
fetch the single-keyword batch `[category]`, store the mean of the category
column (or 0 when the frame is empty or lacks the column) into the result
dictionary. -/
def abcLoop (oracle : Oracle) (now : Nat) (timeframe : String) :
    List String → List (String × Rat) → Cache → List Effect →
    List (String × Rat) × Cache × List Effect
  | [], acc, cache, eff => (acc, cache, eff)
  | category :: rest, acc, cache, eff =>
      let r := fetch_trends_data oracle now cache [category] timeframe "KR"
      let df := r.1
      let score := if !df.isEmpty && df.hasCol category then df.colMean category else 0
      abcLoop oracle now timeframe rest (pyDictSet acc category score) r.2.1 (eff ++ r.2.2)

/-- `analyze_by_category(self, timeframe='today 3-m')`. -/
def analyze_by_category (oracle : Oracle) (now : Nat) (cache : Cache)
    (cfg : Config) (timeframe : String) :
    List (String × Rat) × Cache × List Effect :=
  abcLoop oracle now timeframe cfg.PRODUCT_CATEGORIES [] cache []

/-- The three column assignments of `analyze_by_time`:
`df['hour'] = df.index.hour`, `df['day_of_week'] = df.index.dayofweek`,
`df['date'] = df.index.date`. -/
def addTimeCols (df : Series) : Series :=
  let df1 := df.setCol "hour" (df.index.map (fun t => (t.hour : Rat)))
  let df2 := df1.setCol "day_of_week" (df.index.map (fun t => (t.dayOfWeek : Rat)))
  df2.setCol "date" (df.index.map (fun t => (t.date : Rat)))

/-- In-place mutation of a stored payload: the Python column assignments of
`analyze_by_time` act on the very `DataFrame` object held by the cache
(`fetch_trends_data` returns the stored object, not a copy), so the cache
entry's data changes while its timestamp stays.  This function is the
heap-faithful rendering of that aliasing. -/
def cacheMutate : Cache → CacheKey → Payload → Cache
  | [], _, _ => []
  | (k1, d1, t1) :: rest, k, d =>
      if k1 = k then (k1, d, t1) :: rest else (k1, d1, t1) :: cacheMutate rest k d

/-- `analyze_by_time(self, keywords, timeframe='now 7-d')`: fetch, return a
fresh empty frame when the fetch is empty, otherwise add the `hour`,
`day_of_week` and `date` columns — in place, which also rewrites the cached
payload under the fetch fingerprint (see `cacheMutate`). -/
def analyze_by_time (oracle : Oracle) (now : Nat) (cache : Cache)
    (keywords : List String) (timeframe : String) :
    Series × Cache × List Effect :=
  let r := fetch_trends_data oracle now cache keywords timeframe "KR"
  let df := r.1
  if df.isEmpty then (emptySeries, r.2.1, r.2.2)
  else
    let df2 := addTimeCols df
    (df2, cacheMutate r.2.1 (fetchKey keywords timeframe "KR") (Payload.series df2), r.2.2)

/-- Python's stable ascending sort on rationals (`pandas` sorts group keys
ascending). -/
def pySortedRat (l : List Rat) : List Rat :=
  List.insertionSort (fun a b : Rat => a ≤ b) l

/-- `df.groupby(byCol)[valCol].mean().to_dict()`: group keys in ascending
order, each mapped to the mean of the value column over its group. -/
def groupMeanBy (df : Series) (byCol valCol : String) : List (Rat × Rat) :=
  let pairs := (df.getCol byCol).zip (df.getCol valCol)
  let keys := (pySortedRat (pairs.map Prod.fst)).dedup
  keys.map (fun k =>
    (k, listMean ((pairs.filter (fun p => decide (p.1 = k))).map Prod.snd)))

/-- The shared `for keyword in keywords` loop of `get_hourly_analysis` and
`get_weekly_analysis`: keywords whose column is present are mapped to their
per-bucket means, others are skipped. -/
def groupLoop (df : Series) (byCol : String) :
    List String → List (String × List (Rat × Rat)) → List (String × List (Rat × Rat))
  | [], acc => acc
  | kw :: rest, acc =>
      if df.hasCol kw then groupLoop df byCol rest (pyDictSet acc kw (groupMeanBy df byCol kw))
      else groupLoop df byCol rest acc

/-- `get_hourly_analysis(self, keywords, days=7)`. -/
def get_hourly_analysis (oracle : Oracle) (now : Nat) (cache : Cache)
    (keywords : List String) (days : Nat) :
    List (String × List (Rat × Rat)) × Cache × List Effect :=
  let r := analyze_by_time oracle now cache keywords ("now " ++ toString days ++ "-d")
  let df := r.1
  if df.isEmpty then ([], r.2.1, r.2.2)
  else (groupLoop df "hour" keywords [], r.2.1, r.2.2)

/-- `get_weekly_analysis(self, keywords)`. -/
def get_weekly_analysis (oracle : Oracle) (now : Nat) (cache : Cache)
    (keywords : List String) :
    List (String × List (Rat × Rat)) × Cache × List Effect :=
  let r := analyze_by_time oracle now cache keywords "today 3-m"
  let df := r.1
  if df.isEmpty then ([], r.2.1, r.2.2)
  else (groupLoop df "day_of_week" keywords [], r.2.1, r.2.2)

/-- `for keyword in kws: weights[keyword] = v`. -/
def setAllWeights (v : Rat) : List String → List (String × Rat) → List (String × Rat)
  | [], w => w
  | k :: rest, w => setAllWeights v rest (pyDictSet w k v)

/-- The category loop of `get_keyword_weights`: one single-keyword fetch per
category; on data, every keyword of the category receives the category mean
floored at 1, otherwise the default 1. -/
def gkwLoop (oracle : Oracle) (now : Nat) (cfg : Config) (timeframe : String) :
    List String → List (String × Rat) → Cache → List Effect →
    List (String × Rat) × Cache × List Effect
  | [], acc, cache, eff => (acc, cache, eff)
  | category :: rest, acc, cache, eff =>
      let r := fetch_trends_data oracle now cache [category] timeframe "KR"
      let df := r.1
      if !df.isEmpty && df.hasCol category then
        let cw := max (df.colMean category) 1
        gkwLoop oracle now cfg timeframe rest
          (setAllWeights cw (kwLookup cfg category) acc) r.2.1 (eff ++ r.2.2)
      else
        gkwLoop oracle now cfg timeframe rest
          (setAllWeights 1 (kwLookup cfg category) acc) r.2.1 (eff ++ r.2.2)

/-- The fingerprint of `get_keyword_weights`:
`self._get_cache_key('weights', timeframe)`. -/
def weightsKey (timeframe : String) : CacheKey :=
  get_cache_key [jstr "weights", jstr timeframe]

/-- `get_keyword_weights(self, timeframe='today 3-m')` (proxy mode). -/
def get_keyword_weights (oracle : Oracle) (now : Nat) (cache : Cache)
    (cfg : Config) (timeframe : String) :
    List (String × Rat) × Cache × List Effect :=
  let key := weightsKey timeframe
  match get_from_cache cache key now with
  | some p => (p.toWeights, cache, [])
  | none =>
      let r := gkwLoop oracle now cfg timeframe cfg.PRODUCT_CATEGORIES [] cache []
      (r.1, save_to_cache r.2.1 key (Payload.weights r.1) now, r.2.2)

/-- Structural worker for `mkBatches`: the fuel bounds the number of
batches, so the recursion is structural and computes by reduction; any fuel
of at least `l.length` yields the batching of `l`. -/
def mkBatchesAux : Nat → List String → List (List String)
  | 0, _ => []
  | fuel + 1, l => if l = [] then [] else l.take 5 :: mkBatchesAux fuel (l.drop 5)

/-- `keywords[i:i+5] for i in range(0, len(keywords), 5)`: the keyword list
cut into consecutive batches of 5 (last batch possibly shorter). -/
def mkBatches (l : List String) : List (List String) :=
  mkBatchesAux l.length l

/-- The inner `for keyword in batch` loop of `get_detailed_keyword_weights`
when the batch frame is non-empty: a keyword with its own column receives
`max(mean, 0)`, a missing keyword receives 0. -/
def batchFill (df : Series) : List String → List (String × Rat) → List (String × Rat)
  | [], w => w
  | kw :: rest, w =>
      if df.hasCol kw then batchFill df rest (pyDictSet w kw (max (df.colMean kw) 0))
      else batchFill df rest (pyDictSet w kw 0)

/-- The per-batch loop of `get_detailed_keyword_weights`. -/
def gdkwBatchLoop (oracle : Oracle) (now : Nat) (timeframe : String) :
    List (List String) → List (String × Rat) → Cache → List Effect →
    List (String × Rat) × Cache × List Effect
  | [], acc, cache, eff => (acc, cache, eff)
  | batch :: rest, acc, cache, eff =>
      let r := fetch_trends_data oracle now cache batch timeframe "KR"
      let df := r.1
      if !df.isEmpty then
        gdkwBatchLoop oracle now timeframe rest (batchFill df batch acc) r.2.1 (eff ++ r.2.2)
      else
        gdkwBatchLoop oracle now timeframe rest (setAllWeights 0 batch acc) r.2.1 (eff ++ r.2.2)

/-- The outer category loop of `get_detailed_keyword_weights`. -/
def gdkwCatLoop (oracle : Oracle) (now : Nat) (cfg : Config) (timeframe : String) :
    List String → List (String × Rat) → Cache → List Effect →
    List (String × Rat) × Cache × List Effect
  | [], acc, cache, eff => (acc, cache, eff)
  | cat :: rest, acc, cache, eff =>
      let r := gdkwBatchLoop oracle now timeframe (mkBatches (kwLookup cfg cat)) acc cache eff
      gdkwCatLoop oracle now cfg timeframe rest r.1 r.2.1 r.2.2

/-- The fingerprint of `get_detailed_keyword_weights`:
`self._get_cache_key('detailed_weights', timeframe, category)` (`None`
serializes as `null`). -/
def detailedKey (timeframe : String) (category : Option String) : CacheKey :=
  get_cache_key [jstr "detailed_weights", jstr timeframe,
    match category with
    | none => jnull
    | some c => jstr c]

/-- `[category] if category and category in PRODUCT_KEYWORDS else
PRODUCT_CATEGORIES` — note the silent fallback to all categories for an
unknown, empty or missing category (Python truthiness: `None` and `""` are
falsy). -/
def categoriesToAnalyze (cfg : Config) (category : Option String) : List String :=
  match category with
  | some c =>
      if c ≠ "" ∧ (alookup cfg.PRODUCT_KEYWORDS c).isSome then [c]
      else cfg.PRODUCT_CATEGORIES
  | none => cfg.PRODUCT_CATEGORIES

/-- `get_detailed_keyword_weights(self, timeframe='today 3-m',
category=None)` (exact mode). -/
def get_detailed_keyword_weights (oracle : Oracle) (now : Nat) (cache : Cache)
    (cfg : Config) (timeframe : String) (category : Option String) :
    List (String × Rat) × Cache × List Effect :=
  let key := detailedKey timeframe category
  match get_from_cache cache key now with
  | some p => (p.toWeights, cache, [])
  | none =>
      let r := gdkwCatLoop oracle now cfg timeframe (categoriesToAnalyze cfg category) [] cache []
      (r.1, save_to_cache r.2.1 key (Payload.weights r.1) now, r.2.2)

/-- The sort order used by `get_top_keywords`: descending by score. -/
def scoreGE (a b : String × Rat) : Prop := b.2 ≤ a.2

instance : DecidableRel scoreGE :=
  fun a b => inferInstanceAs (Decidable (b.2 ≤ a.2))

/-- `sorted(weights.items(), key=lambda x: x[1], reverse=True)`.  CPython's
sort is stable, also with `reverse=True` (equal keys keep their original
order); `List.insertionSort` inserts each earlier element before later
equal-score elements and is therefore the same stable descending sort. -/
def pySortedDescByScore (w : List (String × Rat)) : List (String × Rat) :=
  List.insertionSort scoreGE w

/-- `get_top_keywords(self, n=20, timeframe='today 3-m')`. -/
def get_top_keywords (oracle : Oracle) (now : Nat) (cache : Cache)
    (cfg : Config) (n : Nat) (timeframe : String) :
    List (String × Rat) × Cache × List Effect :=
  let r := get_keyword_weights oracle now cache cfg timeframe
  ((pySortedDescByScore r.1).take n, r.2.1, r.2.2)

/-- Descending-by-score order is total. -/
instance : IsTotal (String × Rat) scoreGE :=
  ⟨fun a b => (le_total b.2 a.2).elim Or.inl Or.inr⟩

/-- Descending-by-score order is transitive. -/
instance : IsTrans (String × Rat) scoreGE :=
  ⟨fun _ _ _ hab hbc => le_trans hbc hab⟩

/-- The frame produced for one batch when the initial cache is empty: the
processed adapter response, or the empty frame when the adapter raises
(`fetch_trends_data` truncates the batch to 5 keywords before dispatch). -/
def batchSeries (oracle : Oracle) (tf : String) (b : List String) : Series :=
  match oracle (b.take 5) tf "KR" with
  | none => emptySeries
  | some resp => processResponse resp

/-- The weight the spec assigns in proxy mode: a category whose fetch is
empty or lacks the category column yields 1 for each of its keywords,
otherwise the category-column mean floored at 1. -/
def proxyOutcome (oracle : Oracle) (tf cat : String) : Rat :=
  let df := batchSeries oracle tf [cat]
  if !df.isEmpty && df.hasCol cat then max (df.colMean cat) 1 else 1

/-- The weight the spec assigns in exact mode: an empty batch frame or a
missing keyword column yields 0, otherwise the keyword-column mean floored
at 0. -/
def exactOutcome (oracle : Oracle) (tf : String) (b : List String) (kw : String) : Rat :=
  let df := batchSeries oracle tf b
  if !df.isEmpty then (if df.hasCol kw then max (df.colMean kw) 0 else 0) else 0

/-- All batches fetched by `get_detailed_keyword_weights` over a category
list, in order. -/
def batchesOf (cfg : Config) (cats : List String) : List (List String) :=
  (cats.map (fun c => mkBatches (kwLookup cfg c))).flatten

/-! ### Concrete fixtures used by witnesses and counterexamples -/

/-- A sample at hour 0. -/
def stampA : Stamp := { hour := 0, dayOfWeek := 0, date := 0 }

/-- A sample at hour 12. -/
def stampB : Stamp := { hour := 12, dayOfWeek := 1, date := 1 }

/-- A one-row frame with column `A`. -/
def dfA : Series := { index := [stampA], cols := [("A", [5])] }

/-- A two-row frame with column `x`. -/
def dfX : Series := { index := [stampA, stampB], cols := [("x", [10, 30])] }

/-- An adapter that answers only the batch `["A"]`. -/
def oracleA : Oracle := fun kws _ _ => if kws = ["A"] then some dfA else none

/-- An adapter that answers only the batch `["x"]`. -/
def oracleX : Oracle := fun kws _ _ => if kws = ["x"] then some dfX else none

/-- An adapter that answers the batches `["A"]` and `["x"]`. -/
def oracleAX : Oracle := fun kws _ _ =>
  if kws = ["A"] then some dfA else if kws = ["x"] then some dfX else none

/-- An adapter that always raises. -/
def oracleFail : Oracle := fun _ _ _ => none

/-- An adapter that always answers with an empty frame. -/
def oracleEmpty : Oracle := fun _ _ _ => some emptySeries

/-- A configuration with one category owning two keywords. -/
def cfgA : Config :=
  { PRODUCT_KEYWORDS := [("A", ["k1", "k2"])], PRODUCT_CATEGORIES := ["A"] }

/-- A configuration with three single-keyword categories (used for the
ranking example of the spec). -/
def cfg3 : Config :=
  { PRODUCT_KEYWORDS := [("a", ["a"]), ("b", ["b"]), ("c", ["c"])]
    PRODUCT_CATEGORIES := ["a", "b", "c"] }

/-- An adapter giving categories `a`, `b`, `c` the means 5, 5, 3. -/
def oracle3 : Oracle := fun kws _ _ =>
  if kws = ["a"] then some { index := [stampA], cols := [("a", [5])] }
  else if kws = ["b"] then some { index := [stampA], cols := [("b", [5])] }
  else if kws = ["c"] then some { index := [stampA], cols := [("c", [3])] }
  else none

/-- The fetch fingerprint of the batch `["x"]` over `now 7-d`. -/
def keyX : CacheKey := fetchKey ["x"] "now 7-d" "KR"

/-- A cache holding one entry stored at time 0 under `keyX`. -/
def cacheX : Cache := [(keyX, Payload.series dfX, 0)]

/-! ### Basic lemmas about dictionaries and the cache store -/

theorem alookup_pyDictSet_self {α β : Type} [DecidableEq α]
    (l : List (α × β)) (k : α) (v : β) :
    alookup (pyDictSet l k v) k = some v := by
  induction l with
  | nil => simp [pyDictSet, alookup]
  | cons kv rest ih =>
      obtain ⟨k1, v1⟩ := kv
      by_cases h : k1 = k
      · subst h
        simp [pyDictSet, alookup]
      · simp [pyDictSet, alookup, h, ih]

theorem alookup_pyDictSet_ne {α β : Type} [DecidableEq α]
    (l : List (α × β)) (k k' : α) (v : β) (h : k ≠ k') :
    alookup (pyDictSet l k v) k' = alookup l k' := by
  induction l with
  | nil => simp [pyDictSet, alookup, h]
  | cons kv rest ih =>
      obtain ⟨k1, v1⟩ := kv
      by_cases h1 : k1 = k
      · subst h1
        simp [pyDictSet, alookup, h]
      · simp [pyDictSet, alookup, h1, ih]

theorem get_from_cache_save_self (cache : Cache) (k : CacheKey) (d : Payload)
    (t now : Nat) :
    get_from_cache (save_to_cache cache k d t) k now =
      if now - t < cacheDuration then some d else none := by
  simp [get_from_cache, save_to_cache, alookup_pyDictSet_self]

theorem get_from_cache_save_ne (cache : Cache) (k k' : CacheKey) (d : Payload)
    (t now : Nat) (h : k ≠ k') :
    get_from_cache (save_to_cache cache k d t) k' now =
      get_from_cache cache k' now := by
  simp [get_from_cache, save_to_cache, alookup_pyDictSet_ne _ _ _ _ h]

/-! ### Case lemmas for `fetch_trends_data` -/

theorem fetch_hit (oracle : Oracle) (now : Nat) (cache : Cache)
    (keywords : List String) (timeframe geo : String) (p : Payload)
    (h : get_from_cache cache (fetchKey keywords timeframe geo) now = some p) :
    fetch_trends_data oracle now cache keywords timeframe geo =
      (p.toSeries, cache, []) := by
  simp [fetch_trends_data, h]

theorem fetch_miss_fail (oracle : Oracle) (now : Nat) (cache : Cache)
    (keywords : List String) (timeframe geo : String)
    (h : get_from_cache cache (fetchKey keywords timeframe geo) now = none)
    (ho : oracle (keywords.take 5) timeframe geo = none) :
    fetch_trends_data oracle now cache keywords timeframe geo =
      (emptySeries, cache,
        [Effect.sleep 500, Effect.externalCall (keywords.take 5) timeframe geo]) := by
  simp [fetch_trends_data, h, ho]

theorem fetch_miss_succ (oracle : Oracle) (now : Nat) (cache : Cache)
    (keywords : List String) (timeframe geo : String) (resp : Series)
    (h : get_from_cache cache (fetchKey keywords timeframe geo) now = none)
    (ho : oracle (keywords.take 5) timeframe geo = some resp) :
    fetch_trends_data oracle now cache keywords timeframe geo =
      (processResponse resp,
        save_to_cache cache (fetchKey keywords timeframe geo)
          (Payload.series (processResponse resp)) now,
        [Effect.sleep 500, Effect.externalCall (keywords.take 5) timeframe geo]) := by
  simp [fetch_trends_data, h, ho]

/-! ### Claim C8 — Cache Store contract -/

/-- C8: `get(fp)` returns the payload stored for `fp` only while strictly
less than TTL = 3600 seconds have elapsed since it was stored, and otherwise
behaves as if the entry were absent; a read after expiry triggers a fresh
fetch that overwrites the entry; `put(fp, payload)` stores the payload with
the current timestamp, unconditionally overwriting any prior entry. -/
theorem C8_cache_store_contract
    (cache : Cache) (k : CacheKey) (d d2 : Payload) (ts now : Nat)
    (oracle : Oracle) (kws : List String) (tf geo : String) (resp : Series)
    (hmem : alookup cache k = some (d, ts)) :
    (now - ts < cacheDuration → get_from_cache cache k now = some d)
    ∧ (cacheDuration ≤ now - ts → get_from_cache cache k now = none)
    ∧ alookup (save_to_cache cache k d2 now) k = some (d2, now)
    ∧ get_from_cache (save_to_cache cache k d2 now) k now = some d2
    ∧ (k = fetchKey kws tf geo → cacheDuration ≤ now - ts →
        oracle (kws.take 5) tf geo = some resp →
        fetch_trends_data oracle now cache kws tf geo =
          (processResponse resp,
            save_to_cache cache k (Payload.series (processResponse resp)) now,
            [Effect.sleep 500, Effect.externalCall (kws.take 5) tf geo])
        ∧ get_from_cache
            (save_to_cache cache k (Payload.series (processResponse resp)) now)
            k now = some (Payload.series (processResponse resp))) := by
  refine ⟨?_, ?_, ?_, ?_, ?_⟩
  · intro h
    simp [get_from_cache, hmem, h]
  · intro h
    simp [get_from_cache, hmem, Nat.not_lt.mpr h]
  · exact alookup_pyDictSet_self cache k (d2, now)
  · rw [get_from_cache_save_self]
    simp [cacheDuration]
  · intro hk hexp ho
    subst hk
    have hnone : get_from_cache cache (fetchKey kws tf geo) now = none := by
      simp [get_from_cache, hmem, Nat.not_lt.mpr hexp]
    refine ⟨fetch_miss_succ oracle now cache kws tf geo resp hnone ho, ?_⟩
    rw [get_from_cache_save_self]
    simp [cacheDuration]

/-- Witness for C8: an entry stored at time 0 is absent at time 3600 but
still served at time 3599. -/
theorem C8_cache_store_contract_witness :
    get_from_cache cacheX keyX 3600 = none
    ∧ get_from_cache cacheX keyX 3599 = some (Payload.series dfX) :=
  ⟨(C8_cache_store_contract cacheX keyX (Payload.series dfX) (Payload.series dfX)
      0 3600 oracleX ["x"] "now 7-d" "KR" dfX (by decide)).2.1 (by decide),
   (C8_cache_store_contract cacheX keyX (Payload.series dfX) (Payload.series dfX)
      0 3599 oracleX ["x"] "now 7-d" "KR" dfX (by decide)).1 (by decide)⟩

/-! ### Claim C4 — the inter-call delay and the cache -/

/-- C4 is false on the code: `fetch_trends_data` consults the cache itself
and returns a fresh hit before the `time.sleep(0.5)` line is reached.
Concretely, the fetcher populates the cache on the first call, and a second
call with identical arguments produces no sleep and no external call. -/
theorem C4_counterexample :
    (fetch_trends_data oracleA 0 [] ["A"] "today 3-m" "KR").2.1 ≠ []
    ∧ (fetch_trends_data oracleA 0
        (fetch_trends_data oracleA 0 [] ["A"] "today 3-m" "KR").2.1
        ["A"] "today 3-m" "KR").2.2 = [] := by
  decide

/-- C4 (amended): the fixed 0.5-second delay is slept, before dispatch,
exactly on cache misses; on a fresh cache hit `fetch_trends_data` performs
no sleep and no external call, because the fetcher itself consults the
cache before dispatch and populates it on success. -/
theorem C4_delay_on_miss_only (oracle : Oracle) (now : Nat) (cache : Cache)
    (kws : List String) (tf geo : String) :
    (get_from_cache cache (fetchKey kws tf geo) now = none →
      (fetch_trends_data oracle now cache kws tf geo).2.2 =
        [Effect.sleep 500, Effect.externalCall (kws.take 5) tf geo])
    ∧ (∀ p, get_from_cache cache (fetchKey kws tf geo) now = some p →
        (fetch_trends_data oracle now cache kws tf geo).2.2 = []) := by
  constructor
  · intro h
    cases ho : oracle (kws.take 5) tf geo with
    | none => simp [fetch_miss_fail oracle now cache kws tf geo h ho]
    | some resp => simp [fetch_miss_succ oracle now cache kws tf geo resp h ho]
  · intro p h
    simp [fetch_hit oracle now cache kws tf geo p h]

/-- Witness for the amended C4: a cold-cache call pays the delay and the
external call; a warm-cache call pays neither. -/
theorem C4_delay_on_miss_only_witness :
    (fetch_trends_data oracleFail 0 [] ["q"] "t" "KR").2.2 =
      [Effect.sleep 500, Effect.externalCall ["q"] "t" "KR"]
    ∧ (fetch_trends_data oracleX 0 cacheX ["x"] "now 7-d" "KR").2.2 = [] :=
  ⟨(C4_delay_on_miss_only oracleFail 0 [] ["q"] "t" "KR").1 (by decide),
   (C4_delay_on_miss_only oracleX 0 cacheX ["x"] "now 7-d" "KR").2
     (Payload.series dfX) (by decide)⟩

/-! ### Claim C10 — failures are not cached, successes are -/

/-- C10: if the external call raises, the cache is left exactly as it was
(the empty frame returned for the failure is not stored), while a successful
response — even an empty one — is stored; hence a repeated identical call
after a failure re-attempts the external fetch, paying the delay again,
instead of being served a cached empty result. -/
theorem C10_failure_not_cached (oracle : Oracle) (now : Nat) (cache : Cache)
    (kws : List String) (tf geo : String) (resp : Series)
    (hmiss : get_from_cache cache (fetchKey kws tf geo) now = none) :
    (oracle (kws.take 5) tf geo = none →
      fetch_trends_data oracle now cache kws tf geo =
        (emptySeries, cache,
          [Effect.sleep 500, Effect.externalCall (kws.take 5) tf geo])
      ∧ (fetch_trends_data oracle now
          (fetch_trends_data oracle now cache kws tf geo).2.1 kws tf geo).2.2 =
          [Effect.sleep 500, Effect.externalCall (kws.take 5) tf geo])
    ∧ (oracle (kws.take 5) tf geo = some resp →
      (fetch_trends_data oracle now cache kws tf geo).2.1 =
        save_to_cache cache (fetchKey kws tf geo)
          (Payload.series (processResponse resp)) now) := by
  constructor
  · intro ho
    have h1 := fetch_miss_fail oracle now cache kws tf geo hmiss ho
    exact ⟨h1, by simp [h1, fetch_miss_fail oracle now cache kws tf geo hmiss ho]⟩
  · intro ho
    simp [fetch_miss_succ oracle now cache kws tf geo resp hmiss ho]

/-- Witness for C10: a failed call caches nothing and the repeat pays the
delay again; an empty successful response is stored. -/
theorem C10_failure_not_cached_witness :
    (fetch_trends_data oracleFail 0 [] ["q"] "t" "KR" =
        (emptySeries, [], [Effect.sleep 500, Effect.externalCall ["q"] "t" "KR"])
      ∧ (fetch_trends_data oracleFail 0
          (fetch_trends_data oracleFail 0 [] ["q"] "t" "KR").2.1 ["q"] "t" "KR").2.2 =
          [Effect.sleep 500, Effect.externalCall ["q"] "t" "KR"])
    ∧ (fetch_trends_data oracleEmpty 0 [] ["q"] "t" "KR").2.1 =
        save_to_cache [] (fetchKey ["q"] "t" "KR") (Payload.series emptySeries) 0 :=
  ⟨(C10_failure_not_cached oracleFail 0 [] ["q"] "t" "KR" emptySeries (by decide)).1 rfl,
   (C10_failure_not_cached oracleEmpty 0 [] ["q"] "t" "KR" emptySeries (by decide)).2 rfl⟩

/-! ### Claim C3 — fingerprint identity -/

/-- C3 is false on the code: `_get_cache_key` serializes list arguments in
the order given (`json.dumps(args, sort_keys=True)` sorts only dictionary
keys, and md5 digests of distinct serializations differ), so reordering a
sequence argument changes the fingerprint; in particular the fingerprint of
`("weights", ["b","a"], "today 3-m")` differs from that of
`("weights", ["a","b"], "today 3-m")`. -/
theorem C3_counterexample :
    get_cache_key [jstr "weights", KeyPart.strlist ["b", "a"], jstr "today 3-m"] ≠
      get_cache_key [jstr "weights", KeyPart.strlist ["a", "b"], jstr "today 3-m"] := by
  decide

/-- C3 (amended): `_get_cache_key` is deterministic but order-sensitive on
sequence arguments; order-insensitivity of the fetch fingerprint is
established at the call site instead — `fetch_trends_data` sorts the keyword
list before building the key, so keyword lists that are permutations of one
another yield the same fetch fingerprint. -/
theorem C3_fetch_key_order_insensitive (kws1 kws2 : List String) (tf geo : String)
    (h : kws1.Perm kws2) :
    fetchKey kws1 tf geo = fetchKey kws2 tf geo := by
  have hperm : (pySortedStr kws1).Perm (pySortedStr kws2) :=
    (List.perm_insertionSort _ kws1).trans (h.trans (List.perm_insertionSort _ kws2).symm)
  have hs1 : List.Sorted (fun a b : String => a ≤ b) (pySortedStr kws1) :=
    List.sorted_insertionSort _ kws1
  have hs2 : List.Sorted (fun a b : String => a ≤ b) (pySortedStr kws2) :=
    List.sorted_insertionSort _ kws2
  have hs := List.eq_of_perm_of_sorted hperm hs1 hs2
  unfold fetchKey
  rw [hs]

/-- Witness for the amended C3: the spec's example holds of the fetch-level
fingerprint. -/
theorem C3_fetch_key_order_insensitive_witness :
    fetchKey ["b", "a"] "today 3-m" "KR" = fetchKey ["a", "b"] "today 3-m" "KR" :=
  C3_fetch_key_order_insensitive ["b", "a"] ["a", "b"] "today 3-m" "KR"
    (List.Perm.swap "a" "b" [])

/-! ### Claim C9 — top-N ranking -/

theorem filter_score_orderedInsert_pos (s : Rat) (x : String × Rat)
    (L : List (String × Rat)) (hx : x.2 = s) :
    (List.orderedInsert scoreGE x L).filter (fun y => decide (y.2 = s)) =
      x :: L.filter (fun y => decide (y.2 = s)) := by
  induction L with
  | nil => simp [List.orderedInsert, hx]
  | cons y ys ih =>
      by_cases h : scoreGE x y
      · simp [List.orderedInsert, h, hx]
      · have hy : ¬ (y.2 = s) := by
          intro he
          exact h (by simp [scoreGE, he, hx])
        simp [List.orderedInsert, h, hy, ih, hx]

theorem filter_score_orderedInsert_neg (s : Rat) (x : String × Rat)
    (L : List (String × Rat)) (hx : ¬ x.2 = s) :
    (List.orderedInsert scoreGE x L).filter (fun y => decide (y.2 = s)) =
      L.filter (fun y => decide (y.2 = s)) := by
  induction L with
  | nil => simp [List.orderedInsert, hx]
  | cons y ys ih =>
      by_cases h : scoreGE x y
      · simp [List.orderedInsert, h, hx]
      · simp [List.orderedInsert, h, List.filter_cons, ih]

/-- Stability of the descending sort, stated per score class: within each
class of equal scores the sorted list preserves the original order. -/
theorem filter_score_pySortedDesc (s : Rat) (w : List (String × Rat)) :
    (pySortedDescByScore w).filter (fun y => decide (y.2 = s)) =
      w.filter (fun y => decide (y.2 = s)) := by
  induction w with
  | nil => rfl
  | cons x xs ih =>
      unfold pySortedDescByScore at ih ⊢
      rw [List.insertionSort]
      by_cases hx : x.2 = s
      · rw [filter_score_orderedInsert_pos s x _ hx, ih]
        simp [List.filter_cons, hx]
      · rw [filter_score_orderedInsert_neg s x _ hx, ih]
        simp [List.filter_cons, hx]

/-- C9: `get_top_keywords` computes the proxy-mode weights, sorts them
descending by score with a stable tie-break (entries of equal score keep
their insertion order), and truncates to the first `n` pairs; on the spec's
example weights `a ↦ 5, b ↦ 5, c ↦ 3` (in that insertion order) the top 2
are `[(a, 5), (b, 5)]`. -/
theorem C9_top_ranking (oracle : Oracle) (now : Nat) (cache : Cache)
    (cfg : Config) (n : Nat) (tf : String) :
    (get_top_keywords oracle now cache cfg n tf).1 =
      (pySortedDescByScore (get_keyword_weights oracle now cache cfg tf).1).take n
    ∧ (pySortedDescByScore (get_keyword_weights oracle now cache cfg tf).1).Perm
        (get_keyword_weights oracle now cache cfg tf).1
    ∧ List.Sorted scoreGE
        (pySortedDescByScore (get_keyword_weights oracle now cache cfg tf).1)
    ∧ (∀ s : Rat,
        (pySortedDescByScore (get_keyword_weights oracle now cache cfg tf).1).filter
            (fun y => decide (y.2 = s)) =
          (get_keyword_weights oracle now cache cfg tf).1.filter
            (fun y => decide (y.2 = s)))
    ∧ (get_top_keywords oracle3 0 [] cfg3 2 "today 3-m").1 = [("a", 5), ("b", 5)] :=
  ⟨rfl, List.perm_insertionSort _ _, List.sorted_insertionSort _ _,
   fun s => filter_score_pySortedDesc s _, by decide⟩

/-! ### Lemmas about the weight assignment loops -/

theorem alookup_setAllWeights_not_mem (v : Rat) (kws : List String)
    (w : List (String × Rat)) (kw : String) (h : kw ∉ kws) :
    alookup (setAllWeights v kws w) kw = alookup w kw := by
  induction kws generalizing w with
  | nil => rfl
  | cons k rest ih =>
      have h1 : ¬ (kw = k) ∧ kw ∉ rest := by
        simpa [List.mem_cons, not_or] using h
      rw [setAllWeights, ih _ h1.2]
      exact alookup_pyDictSet_ne w k kw v (fun he => h1.1 he.symm)

theorem alookup_setAllWeights_mem (v : Rat) (kws : List String)
    (w : List (String × Rat)) (kw : String) (h : kw ∈ kws) :
    alookup (setAllWeights v kws w) kw = some v := by
  induction kws generalizing w with
  | nil => cases h
  | cons k rest ih =>
      rw [setAllWeights]
      by_cases hr : kw ∈ rest
      · exact ih _ hr
      · have hk : kw = k := by
          rcases List.mem_cons.mp h with h1 | h1
          · exact h1
          · exact absurd h1 hr
        subst hk
        rw [alookup_setAllWeights_not_mem v rest _ kw hr]
        exact alookup_pyDictSet_self w kw v

theorem alookup_setAllWeights_pres (v : Rat) (kws : List String)
    (w : List (String × Rat)) (kw : String) (h : alookup w kw = some v) :
    alookup (setAllWeights v kws w) kw = some v := by
  by_cases hm : kw ∈ kws
  · exact alookup_setAllWeights_mem v kws w kw hm
  · rw [alookup_setAllWeights_not_mem v kws w kw hm]
    exact h

/-! ### Claim C6 — total failure resilience -/

theorem gkwLoop_all_fail (oracle : Oracle) (now : Nat) (cfg : Config) (tf : String)
    (hfail : ∀ kws t g, oracle kws t g = none) :
    ∀ (cats : List String) (acc : List (String × Rat)) (eff : List Effect),
      (gkwLoop oracle now cfg tf cats acc [] eff).2.1 = []
      ∧ (∀ kw, alookup acc kw = some 1 →
          alookup (gkwLoop oracle now cfg tf cats acc [] eff).1 kw = some 1)
      ∧ (∀ cat ∈ cats, ∀ kw ∈ kwLookup cfg cat,
          alookup (gkwLoop oracle now cfg tf cats acc [] eff).1 kw = some 1) := by
  intro cats
  induction cats with
  | nil =>
      intro acc eff
      exact ⟨rfl, fun kw h => h, fun cat hcat => absurd hcat (List.not_mem_nil cat)⟩
  | cons cat rest ih =>
      intro acc eff
      have hmiss : get_from_cache [] (fetchKey [cat] tf "KR") now = none := rfl
      have hf := fetch_miss_fail oracle now [] [cat] tf "KR" hmiss (hfail _ _ _)
      have hloop :
          gkwLoop oracle now cfg tf (cat :: rest) acc [] eff =
            gkwLoop oracle now cfg tf rest
              (setAllWeights 1 (kwLookup cfg cat) acc) []
              (eff ++ [Effect.sleep 500, Effect.externalCall [cat] tf "KR"]) := by
        rw [gkwLoop, hf]
        simp [emptySeries, Series.isEmpty]
      rw [hloop]
      obtain ⟨hc, hpres, hpop⟩ :=
        ih (setAllWeights 1 (kwLookup cfg cat) acc)
          (eff ++ [Effect.sleep 500, Effect.externalCall [cat] tf "KR"])
      refine ⟨hc, ?_, ?_⟩
      · intro kw h
        exact hpres kw (alookup_setAllWeights_pres 1 _ acc kw h)
      · intro cat2 hcat2 kw hkw
        rcases List.mem_cons.mp hcat2 with h2 | h2
        · subst h2
          exact hpres kw (alookup_setAllWeights_mem 1 _ acc kw hkw)
        · exact hpop cat2 h2 kw hkw

/-- C6: any adapter failure inside `fetch_trends_data` is caught at the
fetcher boundary and converted to an empty frame, never re-raised (the
embedding is a total function whose failure branch returns `emptySeries`
and an unchanged cache); in particular, when every external call fails,
`get_keyword_weights` still returns a weight map holding every configured
keyword with value 1. -/
theorem C6_total_failure_resilience (oracle : Oracle) (now : Nat) (cfg : Config)
    (tf : String) (hfail : ∀ kws t g, oracle kws t g = none) :
    (∀ (cache : Cache) (kws2 : List String) (t g : String) (now2 : Nat),
        get_from_cache cache (fetchKey kws2 t g) now2 = none →
        fetch_trends_data oracle now2 cache kws2 t g =
          (emptySeries, cache,
            [Effect.sleep 500, Effect.externalCall (kws2.take 5) t g]))
    ∧ (∀ cat ∈ cfg.PRODUCT_CATEGORIES, ∀ kw ∈ kwLookup cfg cat,
        alookup (get_keyword_weights oracle now [] cfg tf).1 kw = some 1) := by
  constructor
  · intro cache kws2 t g now2 hm
    exact fetch_miss_fail oracle now2 cache kws2 t g hm (hfail _ _ _)
  · intro cat hcat kw hkw
    have hres :
        (get_keyword_weights oracle now [] cfg tf).1 =
          (gkwLoop oracle now cfg tf cfg.PRODUCT_CATEGORIES [] [] []).1 := by
      simp [get_keyword_weights, get_from_cache, alookup]
    rw [hres]
    exact (gkwLoop_all_fail oracle now cfg tf hfail cfg.PRODUCT_CATEGORIES [] []).2.2
      cat hcat kw hkw

/-- Witness for C6: with an always-failing adapter and the concrete
configuration, both configured keywords are present with weight 1. -/
theorem C6_total_failure_resilience_witness :
    alookup (get_keyword_weights oracleFail 0 [] cfgA "today 3-m").1 "k1" = some 1
    ∧ alookup (get_keyword_weights oracleFail 0 [] cfgA "today 3-m").1 "k2" = some 1 :=
  ⟨(C6_total_failure_resilience oracleFail 0 cfgA "today 3-m"
      (fun _ _ _ => rfl)).2 "A" (by decide) "k1" (by decide),
   (C6_total_failure_resilience oracleFail 0 cfgA "today 3-m"
      (fun _ _ _ => rfl)).2 "A" (by decide) "k2" (by decide)⟩

/-! ### Claim C5 — malformed caller input -/

/-- C5 is false on the code: an unknown category passed to
`get_detailed_keyword_weights` does not fail but silently falls back to
analyzing all categories (returning the same non-empty computed weight map
as `category=None`), and an empty keyword list makes the hourly analysis
silently return an empty mapping. -/
theorem C5_counterexample :
    (get_detailed_keyword_weights oracleFail 0 [] cfgA "today 3-m" (some "zz")).1 =
      (get_detailed_keyword_weights oracleFail 0 [] cfgA "today 3-m" none).1
    ∧ (get_detailed_keyword_weights oracleFail 0 [] cfgA "today 3-m" (some "zz")).1 ≠ []
    ∧ (get_hourly_analysis oracleFail 0 [] [] 7).1 = [] := by
  decide

/-- C5 (amended): malformed caller input is silently defaulted, not
surfaced: an unknown or empty category name makes
`get_detailed_keyword_weights` analyze all configured categories exactly as
`category=None` does, and an empty keyword list makes the time-grouped
analyses return an empty mapping. -/
theorem C5_silent_defaulting (oracle : Oracle) (now : Nat) (cfg : Config)
    (tf : String) (c : String) (days : Nat)
    (h : c = "" ∨ alookup cfg.PRODUCT_KEYWORDS c = none) :
    categoriesToAnalyze cfg (some c) = cfg.PRODUCT_CATEGORIES
    ∧ (get_detailed_keyword_weights oracle now [] cfg tf (some c)).1 =
        (get_detailed_keyword_weights oracle now [] cfg tf none).1
    ∧ (get_hourly_analysis oracle now [] [] days).1 = []
    ∧ (get_weekly_analysis oracle now [] []).1 = [] := by
  have hcta : categoriesToAnalyze cfg (some c) = cfg.PRODUCT_CATEGORIES := by
    rcases h with h | h <;> simp [categoriesToAnalyze, h]
  refine ⟨hcta, ?_, ?_, ?_⟩
  · simp only [get_detailed_keyword_weights, get_from_cache, alookup]
    rw [hcta]
    rfl
  · cases h2 : (analyze_by_time oracle now [] [] ("now " ++ toString days ++ "-d")).1.isEmpty <;>
      simp [get_hourly_analysis, h2, groupLoop]
  · cases h2 : (analyze_by_time oracle now [] [] "today 3-m").1.isEmpty <;>
      simp [get_weekly_analysis, h2, groupLoop]

/-- Witness for the amended C5: the unknown category `zz` falls back to all
categories of the concrete configuration. -/
theorem C5_silent_defaulting_witness :
    categoriesToAnalyze cfgA (some "zz") = cfgA.PRODUCT_CATEGORIES
    ∧ (get_hourly_analysis oracleA 0 [] [] 7).1 = [] :=
  ⟨(C5_silent_defaulting oracleA 0 cfgA "today 3-m" "zz" 7 (Or.inr (by decide))).1,
   (C5_silent_defaulting oracleA 0 cfgA "today 3-m" "zz" 7 (Or.inr (by decide))).2.2.1⟩

/-! ### Claim C2 — cached payloads and aliasing -/

/-- C2 is false on the code: `fetch_trends_data` returns the stored
`DataFrame` object itself, and `analyze_by_time` adds its `hour` /
`day_of_week` / `date` columns to that shared object, so a later cache hit
for the same fingerprint observes the caller-side post-processing: after one
hourly analysis, the payload served for the fetch fingerprint has an
`hour` column that the stored fetch response never had. -/
theorem C2_counterexample :
    (fetch_trends_data oracleX 0
        ((analyze_by_time oracleX 0 [] ["x"] "now 7-d").2.1)
        ["x"] "now 7-d" "KR").1.hasCol "hour" = true
    ∧ (processResponse dfX).hasCol "hour" = false := by
  decide

/-- C2 (amended): cached payloads are returned by reference, not by copy:
when a fetch succeeds with a non-empty frame, `analyze_by_time` returns the
augmented frame and the cache entry under the fetch fingerprint now holds
that same augmented frame (timestamp unchanged), so a later cache hit
returns the frame including the added time columns. -/
theorem C2_cached_payload_mutation (oracle : Oracle) (now : Nat)
    (kws : List String) (tf : String) (resp : Series)
    (hor : oracle (kws.take 5) tf "KR" = some resp)
    (hne : (processResponse resp).isEmpty = false) :
    (analyze_by_time oracle now [] kws tf).1 = addTimeCols (processResponse resp)
    ∧ (analyze_by_time oracle now [] kws tf).2.1 =
        [(fetchKey kws tf "KR", Payload.series (addTimeCols (processResponse resp)), now)] := by
  have hmiss : get_from_cache [] (fetchKey kws tf "KR") now = none := rfl
  have hf := fetch_miss_succ oracle now [] kws tf "KR" resp hmiss hor
  constructor
  · simp [analyze_by_time, hf, hne]
  · simp [analyze_by_time, hf, hne, save_to_cache, pyDictSet, cacheMutate]

/-- Witness for the amended C2: the concrete hourly scenario mutates the
cached payload into the augmented frame. -/
theorem C2_cached_payload_mutation_witness :
    (analyze_by_time oracleX 0 [] ["x"] "now 7-d").2.1 =
      [(fetchKey ["x"] "now 7-d" "KR",
        Payload.series (addTimeCols (processResponse dfX)), 0)] :=
  (C2_cached_payload_mutation oracleX 0 ["x"] "now 7-d" dfX (by decide) (by decide)).2

/-! ### Batching and fingerprint lemmas (towards claim C7) -/

theorem mkBatchesAux_congr : ∀ (f1 f2 : Nat) (l : List String),
    l.length ≤ f1 → l.length ≤ f2 → mkBatchesAux f1 l = mkBatchesAux f2 l := by
  intro f1
  induction f1 with
  | zero =>
      intro f2 l h1 _
      have hl : l = [] := List.eq_nil_of_length_eq_zero (Nat.le_zero.mp h1)
      subst hl
      cases f2 <;> simp [mkBatchesAux]
  | succ f1 ih =>
      intro f2 l h1 h2
      cases l with
      | nil => cases f2 <;> simp [mkBatchesAux]
      | cons a rest =>
          cases f2 with
          | zero => simp at h2
          | succ f2 =>
              have hne : (a :: rest) ≠ [] := List.cons_ne_nil a rest
              simp only [mkBatchesAux, if_neg hne]
              congr 1
              have hl1 : rest.length + 1 ≤ f1 + 1 := h1
              have hl2 : rest.length + 1 ≤ f2 + 1 := h2
              apply ih
              · rw [List.length_drop]
                simp only [List.length_cons]
                omega
              · rw [List.length_drop]
                simp only [List.length_cons]
                omega

theorem mkBatches_eq_cons (a : String) (rest : List String) :
    mkBatches (a :: rest) = (a :: rest).take 5 :: mkBatches ((a :: rest).drop 5) := by
  show mkBatchesAux (a :: rest).length (a :: rest) = _
  simp only [List.length_cons, mkBatchesAux, if_neg (List.cons_ne_nil a rest)]
  congr 1
  apply mkBatchesAux_congr
  · rw [List.length_drop]
    simp only [List.length_cons]
    omega
  · exact le_refl _

theorem mkBatches_flatten_aux : ∀ (n : Nat) (l : List String), l.length ≤ n →
    (mkBatches l).flatten = l := by
  intro n
  induction n with
  | zero =>
      intro l h
      have hl : l = [] := List.eq_nil_of_length_eq_zero (Nat.le_zero.mp h)
      subst hl
      rfl
  | succ n ih =>
      intro l h
      cases l with
      | nil => rfl
      | cons a rest =>
          rw [mkBatches_eq_cons, List.flatten_cons,
            ih ((a :: rest).drop 5) (by
              rw [List.length_drop]
              simp only [List.length_cons]
              simp only [List.length_cons] at h
              omega)]
          exact List.take_append_drop 5 (a :: rest)

/-- The batches of a keyword list partition it: flattening them restores the
list. -/
theorem mkBatches_flatten (l : List String) : (mkBatches l).flatten = l :=
  mkBatches_flatten_aux l.length l (le_refl _)

theorem mkBatches_ne_nil_aux : ∀ (n : Nat) (l : List String), l.length ≤ n →
    ∀ b ∈ mkBatches l, b ≠ [] := by
  intro n
  induction n with
  | zero =>
      intro l h b hb
      have hl : l = [] := List.eq_nil_of_length_eq_zero (Nat.le_zero.mp h)
      subst hl
      simp [mkBatches, mkBatchesAux] at hb
  | succ n ih =>
      intro l h b hb
      cases l with
      | nil => simp [mkBatches, mkBatchesAux] at hb
      | cons a rest =>
          rw [mkBatches_eq_cons] at hb
          rcases List.mem_cons.mp hb with h1 | h1
          · subst h1
            simp [List.take]
          · refine ih ((a :: rest).drop 5) ?_ b h1
            rw [List.length_drop]
            simp only [List.length_cons]
            simp only [List.length_cons] at h
            omega

/-- Every batch is non-empty. -/
theorem mkBatches_ne_nil (l : List String) : ∀ b ∈ mkBatches l, b ≠ [] :=
  mkBatches_ne_nil_aux l.length l (le_refl _)

theorem batchesOf_flatten (cfg : Config) : ∀ cats : List String,
    (batchesOf cfg cats).flatten = (cats.map (kwLookup cfg)).flatten := by
  intro cats
  induction cats with
  | nil => rfl
  | cons c rest ih =>
      simp only [batchesOf, List.map_cons, List.flatten_cons] at ih ⊢
      rw [List.flatten_append, mkBatches_flatten, ih]

theorem batchesOf_ne_nil (cfg : Config) (cats : List String) :
    ∀ b ∈ batchesOf cfg cats, b ≠ [] := by
  intro b hb
  rw [batchesOf, List.mem_flatten] at hb
  obtain ⟨l, hl, hbl⟩ := hb
  obtain ⟨c, _, rfl⟩ := List.mem_map.mp hl
  exact mkBatches_ne_nil _ b hbl

/-- Two keyword lists with the same fetch fingerprint are permutations of
one another. -/
theorem fetchKey_perm_of_eq (b1 b2 : List String) (tf geo : String)
    (h : fetchKey b1 tf geo = fetchKey b2 tf geo) : b1.Perm b2 := by
  have hs : pySortedStr b1 = pySortedStr b2 := by
    simpa [fetchKey, get_cache_key, jstr] using h
  have h2 : (pySortedStr b1).Perm b2 := by
    rw [hs]
    exact List.perm_insertionSort _ b2
  exact (List.perm_insertionSort _ b1).symm.trans h2

/-- On singleton batches the fetch fingerprint is injective in the
keyword. -/
theorem fetchKey_singleton_inj (c1 c2 tf geo : String)
    (h : fetchKey [c1] tf geo = fetchKey [c2] tf geo) : c1 = c2 := by
  have hp := fetchKey_perm_of_eq [c1] [c2] tf geo h
  have : c1 ∈ [c2] := hp.mem_iff.mp (List.mem_singleton_self c1)
  simpa using this

/-- Batches covering pairwise distinct keywords have pairwise distinct fetch
fingerprints. -/
theorem batchKeys_nodup (tf geo : String) : ∀ (L : List (List String)),
    L.flatten.Nodup → (∀ b ∈ L, b ≠ []) →
    (L.map (fun b => fetchKey b tf geo)).Nodup := by
  intro L
  induction L with
  | nil =>
      intro _ _
      simp
  | cons b rest ih =>
      intro hnd hne
      rw [List.flatten_cons, List.nodup_append] at hnd
      obtain ⟨_, hrest, hdisj⟩ := hnd
      rw [List.map_cons]
      refine List.Nodup.cons ?_ (ih hrest (fun b2 h2 => hne b2 (List.mem_cons_of_mem _ h2)))
      intro hmem
      obtain ⟨b2, hb2, heq⟩ := List.mem_map.mp hmem
      have hperm := fetchKey_perm_of_eq b2 b tf geo heq
      obtain ⟨x, hx⟩ := List.exists_mem_of_ne_nil b (hne b (List.mem_cons_self b rest))
      have hx2 : x ∈ b2 := hperm.symm.mem_iff.mp hx
      exact hdisj hx (List.mem_flatten.mpr ⟨b2, hb2, hx2⟩)

/-! ### Lemmas about `batchFill` -/

theorem batchFill_cons (df : Series) (k : String) (rest : List String)
    (w : List (String × Rat)) :
    batchFill df (k :: rest) w =
      batchFill df rest
        (pyDictSet w k (if df.hasCol k then max (df.colMean k) 0 else 0)) := by
  rw [batchFill]
  by_cases hc : df.hasCol k <;> simp [hc]

theorem alookup_batchFill_not_mem (df : Series) (b : List String)
    (w : List (String × Rat)) (kw : String) (h : kw ∉ b) :
    alookup (batchFill df b w) kw = alookup w kw := by
  induction b generalizing w with
  | nil => rfl
  | cons k rest ih =>
      have h1 : ¬ (kw = k) ∧ kw ∉ rest := by
        simpa [List.mem_cons, not_or] using h
      rw [batchFill_cons, ih _ h1.2]
      exact alookup_pyDictSet_ne w k kw _ (fun he => h1.1 he.symm)

theorem alookup_batchFill_mem (df : Series) (b : List String)
    (w : List (String × Rat)) (kw : String) (h : kw ∈ b) :
    alookup (batchFill df b w) kw =
      some (if df.hasCol kw then max (df.colMean kw) 0 else 0) := by
  induction b generalizing w with
  | nil => cases h
  | cons k rest ih =>
      rw [batchFill_cons]
      by_cases hr : kw ∈ rest
      · exact ih _ hr
      · have hk : kw = k := by
          rcases List.mem_cons.mp h with h1 | h1
          · exact h1
          · exact absurd h1 hr
        subst hk
        rw [alookup_batchFill_not_mem df rest _ kw hr]
        exact alookup_pyDictSet_self w kw _

/-! ### Specification of the weight loops (towards claim C7) -/

theorem gdkwBatchLoop_spec (oracle : Oracle) (now : Nat) (tf : String) :
    ∀ (bs : List (List String)) (acc : List (String × Rat)) (cache : Cache)
      (eff : List Effect),
      (∀ b ∈ bs, get_from_cache cache (fetchKey b tf "KR") now = none) →
      (bs.map (fun b2 => fetchKey b2 tf "KR")).Nodup →
      bs.flatten.Nodup →
      (∀ kw, kw ∉ bs.flatten →
          alookup (gdkwBatchLoop oracle now tf bs acc cache eff).1 kw = alookup acc kw)
      ∧ (∀ b ∈ bs, ∀ kw ∈ b,
          alookup (gdkwBatchLoop oracle now tf bs acc cache eff).1 kw =
            some (exactOutcome oracle tf b kw)) := by
  intro bs
  induction bs with
  | nil =>
      intro acc cache eff _ _ _
      exact ⟨fun kw _ => rfl, fun b hb => absurd hb (List.not_mem_nil b)⟩
  | cons b rest ih =>
      intro acc cache eff hmiss hkeys hflat
      have hmb : get_from_cache cache (fetchKey b tf "KR") now = none :=
        hmiss b (List.mem_cons_self b rest)
      rw [List.flatten_cons, List.nodup_append] at hflat
      obtain ⟨hbnd, hrestnd, hdisj⟩ := hflat
      rw [List.map_cons, List.nodup_cons] at hkeys
      obtain ⟨hkey_notmem, hkeys_rest⟩ := hkeys
      have hnotflat : ∀ kw : String, kw ∉ (b ++ rest.flatten) →
          kw ∉ b ∧ kw ∉ rest.flatten := by
        intro kw hkw
        constructor
        · intro hc
          exact hkw (List.mem_append.mpr (Or.inl hc))
        · intro hc
          exact hkw (List.mem_append.mpr (Or.inr hc))
      cases ho : oracle (b.take 5) tf "KR" with
      | none =>
          have hf := fetch_miss_fail oracle now cache b tf "KR" hmb ho
          have hstep :
              gdkwBatchLoop oracle now tf (b :: rest) acc cache eff =
                gdkwBatchLoop oracle now tf rest (setAllWeights 0 b acc) cache
                  (eff ++ [Effect.sleep 500, Effect.externalCall (b.take 5) tf "KR"]) := by
            rw [gdkwBatchLoop, hf]
            simp [emptySeries, Series.isEmpty]
          rw [hstep]
          obtain ⟨hpres, hpop⟩ :=
            ih (setAllWeights 0 b acc) cache _
              (fun b2 h2 => hmiss b2 (List.mem_cons_of_mem b h2)) hkeys_rest hrestnd
          constructor
          · intro kw hkw
            rw [List.flatten_cons] at hkw
            obtain ⟨h1, h2⟩ := hnotflat kw hkw
            rw [hpres kw h2, alookup_setAllWeights_not_mem 0 b acc kw h1]
          · intro b2 hb2 kw hkw
            rcases List.mem_cons.mp hb2 with h2 | h2
            · subst h2
              have hkw2 : kw ∉ rest.flatten := fun hmem => hdisj hkw hmem
              rw [hpres kw hkw2, alookup_setAllWeights_mem 0 b2 acc kw hkw]
              simp [exactOutcome, batchSeries, ho, emptySeries, Series.isEmpty]
            · exact hpop b2 h2 kw hkw
      | some resp =>
          have hf := fetch_miss_succ oracle now cache b tf "KR" resp hmb ho
          have hmiss2 : ∀ b2 ∈ rest,
              get_from_cache
                (save_to_cache cache (fetchKey b tf "KR")
                  (Payload.series (processResponse resp)) now)
                (fetchKey b2 tf "KR") now = none := by
            intro b2 h2
            rw [get_from_cache_save_ne]
            · exact hmiss b2 (List.mem_cons_of_mem b h2)
            · intro he
              exact hkey_notmem
                (he ▸ List.mem_map_of_mem (fun b3 => fetchKey b3 tf "KR") h2)
          cases hdf : (processResponse resp).isEmpty with
          | true =>
              have hstep :
                  gdkwBatchLoop oracle now tf (b :: rest) acc cache eff =
                    gdkwBatchLoop oracle now tf rest (setAllWeights 0 b acc)
                      (save_to_cache cache (fetchKey b tf "KR")
                        (Payload.series (processResponse resp)) now)
                      (eff ++ [Effect.sleep 500,
                        Effect.externalCall (b.take 5) tf "KR"]) := by
                rw [gdkwBatchLoop, hf]
                simp [hdf]
              rw [hstep]
              obtain ⟨hpres, hpop⟩ :=
                ih (setAllWeights 0 b acc) _ _ hmiss2 hkeys_rest hrestnd
              constructor
              · intro kw hkw
                rw [List.flatten_cons] at hkw
                obtain ⟨h1, h2⟩ := hnotflat kw hkw
                rw [hpres kw h2, alookup_setAllWeights_not_mem 0 b acc kw h1]
              · intro b2 hb2 kw hkw
                rcases List.mem_cons.mp hb2 with h2 | h2
                · subst h2
                  have hkw2 : kw ∉ rest.flatten := fun hmem => hdisj hkw hmem
                  rw [hpres kw hkw2, alookup_setAllWeights_mem 0 b2 acc kw hkw]
                  simp [exactOutcome, batchSeries, ho, hdf]
                · exact hpop b2 h2 kw hkw
          | false =>
              have hstep :
                  gdkwBatchLoop oracle now tf (b :: rest) acc cache eff =
                    gdkwBatchLoop oracle now tf rest
                      (batchFill (processResponse resp) b acc)
                      (save_to_cache cache (fetchKey b tf "KR")
                        (Payload.series (processResponse resp)) now)
                      (eff ++ [Effect.sleep 500,
                        Effect.externalCall (b.take 5) tf "KR"]) := by
                rw [gdkwBatchLoop, hf]
                simp [hdf]
              rw [hstep]
              obtain ⟨hpres, hpop⟩ :=
                ih (batchFill (processResponse resp) b acc) _ _ hmiss2 hkeys_rest hrestnd
              constructor
              · intro kw hkw
                rw [List.flatten_cons] at hkw
                obtain ⟨h1, h2⟩ := hnotflat kw hkw
                rw [hpres kw h2, alookup_batchFill_not_mem _ b acc kw h1]
              · intro b2 hb2 kw hkw
                rcases List.mem_cons.mp hb2 with h2 | h2
                · subst h2
                  have hkw2 : kw ∉ rest.flatten := fun hmem => hdisj hkw hmem
                  rw [hpres kw hkw2, alookup_batchFill_mem _ b2 acc kw hkw]
                  simp [exactOutcome, batchSeries, ho, hdf]
                · exact hpop b2 h2 kw hkw

theorem gdkwBatchLoop_append (oracle : Oracle) (now : Nat) (tf : String) :
    ∀ (l1 l2 : List (List String)) (acc : List (String × Rat)) (cache : Cache)
      (eff : List Effect),
      gdkwBatchLoop oracle now tf (l1 ++ l2) acc cache eff =
        gdkwBatchLoop oracle now tf l2
          (gdkwBatchLoop oracle now tf l1 acc cache eff).1
          (gdkwBatchLoop oracle now tf l1 acc cache eff).2.1
          (gdkwBatchLoop oracle now tf l1 acc cache eff).2.2 := by
  intro l1
  induction l1 with
  | nil =>
      intro l2 acc cache eff
      rfl
  | cons b rest ih =>
      intro l2 acc cache eff
      simp only [List.cons_append, gdkwBatchLoop]
      cases h : (fetch_trends_data oracle now cache b tf "KR").1.isEmpty <;>
        simp [h] <;> exact ih l2 _ _ _

theorem gdkwCatLoop_eq_batchLoop (oracle : Oracle) (now : Nat) (cfg : Config)
    (tf : String) :
    ∀ (cats : List String) (acc : List (String × Rat)) (cache : Cache)
      (eff : List Effect),
      gdkwCatLoop oracle now cfg tf cats acc cache eff =
        gdkwBatchLoop oracle now tf (batchesOf cfg cats) acc cache eff := by
  intro cats
  induction cats with
  | nil =>
      intro acc cache eff
      rfl
  | cons c rest ih =>
      intro acc cache eff
      have hb : batchesOf cfg (c :: rest) =
          mkBatches (kwLookup cfg c) ++ batchesOf cfg rest := by
        simp [batchesOf]
      rw [hb,
        gdkwBatchLoop_append oracle now tf (mkBatches (kwLookup cfg c))
          (batchesOf cfg rest) acc cache eff,
        gdkwCatLoop]
      exact ih _ _ _

theorem gkwLoop_spec (oracle : Oracle) (now : Nat) (cfg : Config) (tf : String) :
    ∀ (cats : List String) (acc : List (String × Rat)) (cache : Cache)
      (eff : List Effect),
      (∀ cat ∈ cats, get_from_cache cache (fetchKey [cat] tf "KR") now = none) →
      cats.Nodup →
      ((cats.map (kwLookup cfg)).flatten).Nodup →
      (∀ kw, kw ∉ (cats.map (kwLookup cfg)).flatten →
          alookup (gkwLoop oracle now cfg tf cats acc cache eff).1 kw = alookup acc kw)
      ∧ (∀ cat ∈ cats, ∀ kw ∈ kwLookup cfg cat,
          alookup (gkwLoop oracle now cfg tf cats acc cache eff).1 kw =
            some (proxyOutcome oracle tf cat)) := by
  intro cats
  induction cats with
  | nil =>
      intro acc cache eff _ _ _
      exact ⟨fun kw _ => rfl, fun cat hcat => absurd hcat (List.not_mem_nil cat)⟩
  | cons cat rest ih =>
      intro acc cache eff hmiss hnd hflat
      have hmc : get_from_cache cache (fetchKey [cat] tf "KR") now = none :=
        hmiss cat (List.mem_cons_self cat rest)
      rw [List.map_cons, List.flatten_cons, List.nodup_append] at hflat
      obtain ⟨hknd, hrestnd, hdisj⟩ := hflat
      rw [List.nodup_cons] at hnd
      obtain ⟨hcat_notmem, hnd_rest⟩ := hnd
      have hnotflat : ∀ kw : String,
          kw ∉ (kwLookup cfg cat ++ (rest.map (kwLookup cfg)).flatten) →
          kw ∉ kwLookup cfg cat ∧ kw ∉ (rest.map (kwLookup cfg)).flatten := by
        intro kw hkw
        constructor
        · intro hc
          exact hkw (List.mem_append.mpr (Or.inl hc))
        · intro hc
          exact hkw (List.mem_append.mpr (Or.inr hc))
      cases ho : oracle [cat] tf "KR" with
      | none =>
          have hf := fetch_miss_fail oracle now cache [cat] tf "KR" hmc ho
          have hstep :
              gkwLoop oracle now cfg tf (cat :: rest) acc cache eff =
                gkwLoop oracle now cfg tf rest
                  (setAllWeights 1 (kwLookup cfg cat) acc) cache
                  (eff ++ [Effect.sleep 500, Effect.externalCall [cat] tf "KR"]) := by
            rw [gkwLoop, hf]
            simp [emptySeries, Series.isEmpty]
          rw [hstep]
          obtain ⟨hpres, hpop⟩ :=
            ih (setAllWeights 1 (kwLookup cfg cat) acc) cache _
              (fun c2 h2 => hmiss c2 (List.mem_cons_of_mem cat h2)) hnd_rest hrestnd
          constructor
          · intro kw hkw
            rw [List.map_cons, List.flatten_cons] at hkw
            obtain ⟨h1, h2⟩ := hnotflat kw hkw
            rw [hpres kw h2, alookup_setAllWeights_not_mem 1 _ acc kw h1]
          · intro cat2 hcat2 kw hkw
            rcases List.mem_cons.mp hcat2 with h2 | h2
            · subst h2
              have hkw2 : kw ∉ (rest.map (kwLookup cfg)).flatten :=
                fun hmem => hdisj hkw hmem
              rw [hpres kw hkw2, alookup_setAllWeights_mem 1 _ acc kw hkw]
              simp [proxyOutcome, batchSeries, ho, emptySeries, Series.isEmpty]
            · exact hpop cat2 h2 kw hkw
      | some resp =>
          have hf := fetch_miss_succ oracle now cache [cat] tf "KR" resp hmc ho
          have hmiss2 : ∀ c2 ∈ rest,
              get_from_cache
                (save_to_cache cache (fetchKey [cat] tf "KR")
                  (Payload.series (processResponse resp)) now)
                (fetchKey [c2] tf "KR") now = none := by
            intro c2 h2
            rw [get_from_cache_save_ne]
            · exact hmiss c2 (List.mem_cons_of_mem cat h2)
            · intro he
              have hc : cat = c2 := fetchKey_singleton_inj cat c2 tf "KR" he
              exact hcat_notmem (hc ▸ h2)
          cases hcond : (!(processResponse resp).isEmpty
              && (processResponse resp).hasCol cat) with
          | true =>
              have hstep :
                  gkwLoop oracle now cfg tf (cat :: rest) acc cache eff =
                    gkwLoop oracle now cfg tf rest
                      (setAllWeights (max ((processResponse resp).colMean cat) 1)
                        (kwLookup cfg cat) acc)
                      (save_to_cache cache (fetchKey [cat] tf "KR")
                        (Payload.series (processResponse resp)) now)
                      (eff ++ [Effect.sleep 500,
                        Effect.externalCall [cat] tf "KR"]) := by
                rw [gkwLoop, hf]
                simp [hcond]
              rw [hstep]
              obtain ⟨hpres, hpop⟩ :=
                ih (setAllWeights (max ((processResponse resp).colMean cat) 1)
                    (kwLookup cfg cat) acc) _ _ hmiss2 hnd_rest hrestnd
              constructor
              · intro kw hkw
                rw [List.map_cons, List.flatten_cons] at hkw
                obtain ⟨h1, h2⟩ := hnotflat kw hkw
                rw [hpres kw h2, alookup_setAllWeights_not_mem _ _ acc kw h1]
              · intro cat2 hcat2 kw hkw
                rcases List.mem_cons.mp hcat2 with h2 | h2
                · subst h2
                  have hkw2 : kw ∉ (rest.map (kwLookup cfg)).flatten :=
                    fun hmem => hdisj hkw hmem
                  rw [hpres kw hkw2, alookup_setAllWeights_mem _ _ acc kw hkw]
                  simp [proxyOutcome, batchSeries, ho, hcond]
                · exact hpop cat2 h2 kw hkw
          | false =>
              have hstep :
                  gkwLoop oracle now cfg tf (cat :: rest) acc cache eff =
                    gkwLoop oracle now cfg tf rest
                      (setAllWeights 1 (kwLookup cfg cat) acc)
                      (save_to_cache cache (fetchKey [cat] tf "KR")
                        (Payload.series (processResponse resp)) now)
                      (eff ++ [Effect.sleep 500,
                        Effect.externalCall [cat] tf "KR"]) := by
                rw [gkwLoop, hf]
                simp [hcond]
              rw [hstep]
              obtain ⟨hpres, hpop⟩ :=
                ih (setAllWeights 1 (kwLookup cfg cat) acc) _ _ hmiss2 hnd_rest hrestnd
              constructor
              · intro kw hkw
                rw [List.map_cons, List.flatten_cons] at hkw
                obtain ⟨h1, h2⟩ := hnotflat kw hkw
                rw [hpres kw h2, alookup_setAllWeights_not_mem 1 _ acc kw h1]
              · intro cat2 hcat2 kw hkw
                rcases List.mem_cons.mp hcat2 with h2 | h2
                · subst h2
                  have hkw2 : kw ∉ (rest.map (kwLookup cfg)).flatten :=
                    fun hmem => hdisj hkw hmem
                  rw [hpres kw hkw2, alookup_setAllWeights_mem 1 _ acc kw hkw]
                  simp [proxyOutcome, batchSeries, ho, hcond]
                · exact hpop cat2 h2 kw hkw

/-! ### Claim C7 — floor policy of the two weight modes -/

/-- C7: starting from a cold cache, proxy mode gives every keyword of a
category weight 1 when the category fetch is empty or lacks the category
column and otherwise the category mean floored at 1; exact mode gives a
keyword 0 when its batch frame is empty or lacks its column and otherwise
the keyword's own column mean floored at 0; in both modes every requested
keyword is present in the returned weight map.  The `Nodup` hypotheses state
the configuration well-formedness of the spec's data model: each keyword
belongs to exactly one category and category names are distinct. -/
theorem C7_floor_policy (oracle : Oracle) (now : Nat) (cfg : Config) (tf : String)
    (category : Option String)
    (hp_cats : cfg.PRODUCT_CATEGORIES.Nodup)
    (hp_kws : ((cfg.PRODUCT_CATEGORIES.map (kwLookup cfg)).flatten).Nodup)
    (he_kws : (((categoriesToAnalyze cfg category).map (kwLookup cfg)).flatten).Nodup) :
    (∀ cat ∈ cfg.PRODUCT_CATEGORIES, ∀ kw ∈ kwLookup cfg cat,
        alookup (get_keyword_weights oracle now [] cfg tf).1 kw =
          some (proxyOutcome oracle tf cat))
    ∧ (∀ b ∈ batchesOf cfg (categoriesToAnalyze cfg category), ∀ kw ∈ b,
        alookup (get_detailed_keyword_weights oracle now [] cfg tf category).1 kw =
          some (exactOutcome oracle tf b kw))
    ∧ (∀ cat ∈ categoriesToAnalyze cfg category, ∀ kw ∈ kwLookup cfg cat,
        (alookup (get_detailed_keyword_weights oracle now [] cfg tf category).1
          kw).isSome) := by
  have hproxy1 : (get_keyword_weights oracle now [] cfg tf).1 =
      (gkwLoop oracle now cfg tf cfg.PRODUCT_CATEGORIES [] [] []).1 := by
    simp [get_keyword_weights, get_from_cache, alookup]
  have hdet1 : (get_detailed_keyword_weights oracle now [] cfg tf category).1 =
      (gdkwBatchLoop oracle now tf
        (batchesOf cfg (categoriesToAnalyze cfg category)) [] [] []).1 := by
    simp only [get_detailed_keyword_weights, get_from_cache, alookup]
    rw [gdkwCatLoop_eq_batchLoop]
  have hbflat : (batchesOf cfg (categoriesToAnalyze cfg category)).flatten =
      ((categoriesToAnalyze cfg category).map (kwLookup cfg)).flatten :=
    batchesOf_flatten cfg _
  have hbnd : (batchesOf cfg (categoriesToAnalyze cfg category)).flatten.Nodup := by
    rw [hbflat]
    exact he_kws
  have hknd := batchKeys_nodup tf "KR" _ hbnd (batchesOf_ne_nil cfg _)
  obtain ⟨_, hb⟩ := gdkwBatchLoop_spec oracle now tf
    (batchesOf cfg (categoriesToAnalyze cfg category)) [] [] []
    (fun b _ => rfl) hknd hbnd
  obtain ⟨_, hpx⟩ := gkwLoop_spec oracle now cfg tf cfg.PRODUCT_CATEGORIES [] [] []
    (fun cat _ => rfl) hp_cats hp_kws
  refine ⟨?_, ?_, ?_⟩
  · intro cat hcat kw hkw
    rw [hproxy1]
    exact hpx cat hcat kw hkw
  · intro b hbmem kw hkw
    rw [hdet1]
    exact hb b hbmem kw hkw
  · intro cat hcat kw hkw
    have hmem : kw ∈ (batchesOf cfg (categoriesToAnalyze cfg category)).flatten := by
      rw [hbflat]
      exact List.mem_flatten.mpr ⟨kwLookup cfg cat, List.mem_map_of_mem _ hcat, hkw⟩
    obtain ⟨b, hbm, hkb⟩ := List.mem_flatten.mp hmem
    rw [hdet1, hb b hbm kw hkb]
    rfl

/-- Witness for C7: on the concrete configuration, proxy mode gives keyword
`k1` the category mean 5 of category `A`, while exact mode (whose batch
`["k1","k2"]` the adapter cannot answer) gives it the exact-mode floor 0. -/
theorem C7_floor_policy_witness :
    alookup (get_keyword_weights oracleA 0 [] cfgA "today 3-m").1 "k1" = some 5
    ∧ alookup (get_detailed_keyword_weights oracleA 0 [] cfgA "today 3-m" none).1
        "k1" = some 0 :=
  ⟨((C7_floor_policy oracleA 0 cfgA "today 3-m" none (by decide) (by decide)
        (by decide)).1 "A" (by decide) "k1" (by decide)).trans (by decide),
   ((C7_floor_policy oracleA 0 cfgA "today 3-m" none (by decide) (by decide)
        (by decide)).2.1 ["k1", "k2"] (by decide) "k1" (by decide)).trans (by decide)⟩

/-! ### Claim C1 — what is cached under which fingerprint -/

theorem alookup_mem {α β : Type} [DecidableEq α] :
    ∀ (l : List (α × β)) (k : α) (v : β), alookup l k = some v → (k, v) ∈ l := by
  intro l
  induction l with
  | nil =>
      intro k v h
      simp [alookup] at h
  | cons kv rest ih =>
      intro k v h
      obtain ⟨k1, v1⟩ := kv
      by_cases hk : k1 = k
      · subst hk
        simp [alookup] at h
        subst h
        exact List.mem_cons_self _ _
      · rw [alookup, if_neg hk] at h
        exact List.mem_cons_of_mem _ (ih k v h)

theorem mem_pyDictSet {α β : Type} [DecidableEq α] :
    ∀ (l : List (α × β)) (k : α) (v : β) (e : α × β),
      e ∈ pyDictSet l k v → e ∈ l ∨ e = (k, v) := by
  intro l
  induction l with
  | nil =>
      intro k v e he
      simp [pyDictSet] at he
      exact Or.inr he
  | cons kv rest ih =>
      intro k v e he
      obtain ⟨k1, v1⟩ := kv
      by_cases hk : k1 = k
      · subst hk
        rw [pyDictSet, if_pos rfl] at he
        rcases List.mem_cons.mp he with h1 | h1
        · exact Or.inr h1
        · exact Or.inl (List.mem_cons_of_mem _ h1)
      · rw [pyDictSet, if_neg hk] at he
        rcases List.mem_cons.mp he with h1 | h1
        · exact Or.inl (h1 ▸ List.mem_cons_self _ _)
        · rcases ih k v e h1 with h2 | h2
          · exact Or.inl (List.mem_cons_of_mem _ h2)
          · exact Or.inr h2

theorem alookup_pyDictSet_isSome {α β : Type} [DecidableEq α]
    (l : List (α × β)) (k k2 : α) (v : β) (h : (alookup l k2).isSome) :
    (alookup (pyDictSet l k v) k2).isSome := by
  by_cases hk : k = k2
  · subst hk
    rw [alookup_pyDictSet_self]
    rfl
  · rw [alookup_pyDictSet_ne l k k2 v hk]
    exact h

theorem get_from_cache_isSome_mem (cache : Cache) (k : CacheKey) (now : Nat)
    (p : Payload) (h : get_from_cache cache k now = some p) :
    (alookup cache k).isSome := by
  rw [get_from_cache] at h
  cases he : alookup cache k with
  | none => rw [he] at h; simp at h
  | some e => rfl

theorem get_from_cache_isSome_of_fresh (cache : Cache) (k : CacheKey)
    (now now2 : Nat) (hts : ∀ e ∈ cache, e.2.2 = now)
    (hlt : now2 - now < cacheDuration) (hk : (alookup cache k).isSome) :
    (get_from_cache cache k now2).isSome := by
  obtain ⟨⟨d, ts⟩, he⟩ := Option.isSome_iff_exists.mp hk
  have hts2 : ts = now := hts (k, d, ts) (alookup_mem cache k (d, ts) he)
  subst hts2
  simp [get_from_cache, he, hlt]

/-- After `analyze_by_category`'s loop runs, starting from a cache holding
only singleton fetch fingerprints stamped `now`, the cache still holds only
such entries (whatever the adapter does), keeps every key it had, and holds
an entry for every processed category whose query the adapter answered. -/
theorem abcLoop_populates (oracle : Oracle) (now : Nat) (tf : String) :
    ∀ (cats : List String) (acc : List (String × Rat)) (cache : Cache)
      (eff : List Effect),
      (∀ e ∈ cache, (∃ c : String, e.1 = fetchKey [c] tf "KR") ∧ e.2.2 = now) →
      (∀ e ∈ (abcLoop oracle now tf cats acc cache eff).2.1,
          (∃ c : String, e.1 = fetchKey [c] tf "KR") ∧ e.2.2 = now)
      ∧ (∀ k, (alookup cache k).isSome →
          (alookup (abcLoop oracle now tf cats acc cache eff).2.1 k).isSome)
      ∧ (∀ cat ∈ cats, (oracle [cat] tf "KR").isSome →
          (alookup (abcLoop oracle now tf cats acc cache eff).2.1
            (fetchKey [cat] tf "KR")).isSome) := by
  intro cats
  induction cats with
  | nil =>
      intro acc cache eff hinv
      exact ⟨hinv, fun k h => h, fun cat hcat => absurd hcat (List.not_mem_nil cat)⟩
  | cons cat rest ih =>
      intro acc cache eff hinv
      cases hget : get_from_cache cache (fetchKey [cat] tf "KR") now with
      | some p =>
          have hf := fetch_hit oracle now cache [cat] tf "KR" p hget
          have hstep :
              abcLoop oracle now tf (cat :: rest) acc cache eff =
                abcLoop oracle now tf rest
                  (pyDictSet acc cat
                    (if !p.toSeries.isEmpty && p.toSeries.hasCol cat then
                      p.toSeries.colMean cat else 0)) cache eff := by
            rw [abcLoop, hf]
            simp
          rw [hstep]
          obtain ⟨hi, hmono, hpop⟩ := ih _ cache eff hinv
          refine ⟨hi, hmono, ?_⟩
          intro cat2 hcat2 hsome
          rcases List.mem_cons.mp hcat2 with h2 | h2
          · subst h2
            exact hmono _ (get_from_cache_isSome_mem cache _ now p hget)
          · exact hpop cat2 h2 hsome
      | none =>
          cases ho : oracle [cat] tf "KR" with
          | none =>
              have hf := fetch_miss_fail oracle now cache [cat] tf "KR" hget ho
              have hstep :
                  abcLoop oracle now tf (cat :: rest) acc cache eff =
                    abcLoop oracle now tf rest
                      (pyDictSet acc cat
                        (if !emptySeries.isEmpty && emptySeries.hasCol cat then
                          emptySeries.colMean cat else 0)) cache
                      (eff ++ [Effect.sleep 500,
                        Effect.externalCall [cat] tf "KR"]) := by
                rw [abcLoop, hf]
                simp
              rw [hstep]
              obtain ⟨hi, hmono, hpop⟩ := ih _ cache _ hinv
              refine ⟨hi, hmono, ?_⟩
              intro cat2 hcat2 hsome
              rcases List.mem_cons.mp hcat2 with h2 | h2
              · subst h2
                rw [ho] at hsome
                simp at hsome
              · exact hpop cat2 h2 hsome
          | some resp =>
              have hf := fetch_miss_succ oracle now cache [cat] tf "KR" resp hget ho
              have hstep :
                  abcLoop oracle now tf (cat :: rest) acc cache eff =
                    abcLoop oracle now tf rest
                      (pyDictSet acc cat
                        (if !(processResponse resp).isEmpty
                            && (processResponse resp).hasCol cat then
                          (processResponse resp).colMean cat else 0))
                      (save_to_cache cache (fetchKey [cat] tf "KR")
                        (Payload.series (processResponse resp)) now)
                      (eff ++ [Effect.sleep 500,
                        Effect.externalCall [cat] tf "KR"]) := by
                rw [abcLoop, hf]
                simp
              rw [hstep]
              have hinv2 : ∀ e ∈ save_to_cache cache (fetchKey [cat] tf "KR")
                  (Payload.series (processResponse resp)) now,
                  (∃ c : String, e.1 = fetchKey [c] tf "KR") ∧ e.2.2 = now := by
                intro e he
                rcases mem_pyDictSet cache _ _ e he with h1 | h1
                · exact hinv e h1
                · subst h1
                  exact ⟨⟨cat, rfl⟩, rfl⟩
              obtain ⟨hi, hmono, hpop⟩ := ih _ _ _ hinv2
              refine ⟨hi, ?_, ?_⟩
              · intro k hk
                exact hmono k (alookup_pyDictSet_isSome cache _ k _ hk)
              · intro cat2 hcat2 hsome
                rcases List.mem_cons.mp hcat2 with h2 | h2
                · subst h2
                  refine hmono _ ?_
                  rw [save_to_cache, alookup_pyDictSet_self]
                  rfl
                · exact hpop cat2 h2 hsome

/-- When every category's fetch fingerprint is freshly cached, the
`analyze_by_category` loop leaves the cache untouched and performs no
effect at all. -/
theorem abcLoop_all_hit (oracle : Oracle) (now2 : Nat) (tf : String) :
    ∀ (cats : List String) (acc : List (String × Rat)) (cache : Cache)
      (eff : List Effect),
      (∀ cat ∈ cats, (get_from_cache cache (fetchKey [cat] tf "KR") now2).isSome) →
      (abcLoop oracle now2 tf cats acc cache eff).2.1 = cache
      ∧ (abcLoop oracle now2 tf cats acc cache eff).2.2 = eff := by
  intro cats
  induction cats with
  | nil =>
      intro acc cache eff _
      exact ⟨rfl, rfl⟩
  | cons cat rest ih =>
      intro acc cache eff hhit
      obtain ⟨p, hp⟩ := Option.isSome_iff_exists.mp
        (hhit cat (List.mem_cons_self cat rest))
      have hf := fetch_hit oracle now2 cache [cat] tf "KR" p hp
      have hstep :
          abcLoop oracle now2 tf (cat :: rest) acc cache eff =
            abcLoop oracle now2 tf rest
              (pyDictSet acc cat
                (if !p.toSeries.isEmpty && p.toSeries.hasCol cat then
                  p.toSeries.colMean cat else 0)) cache eff := by
        rw [abcLoop, hf]
        simp
      rw [hstep]
      exact ih _ cache eff (fun c2 h2 => hhit c2 (List.mem_cons_of_mem cat h2))

/-- A second `analyze_by_time` call for the same arguments within TTL of a
first call from a cold cache whose fetch succeeded performs no sleep and no
external call. -/
theorem abt_second_effects (oracle : Oracle) (now now2 : Nat) (kws : List String)
    (tf : String) (hlt : now2 - now < cacheDuration)
    (hsucc : (oracle (kws.take 5) tf "KR").isSome) :
    (analyze_by_time oracle now2
        (analyze_by_time oracle now [] kws tf).2.1 kws tf).2.2 = [] := by
  obtain ⟨resp, ho⟩ := Option.isSome_iff_exists.mp hsucc
  have hmiss : get_from_cache [] (fetchKey kws tf "KR") now = none := rfl
  have hf := fetch_miss_succ oracle now [] kws tf "KR" resp hmiss ho
  have hc1 : ∃ D : Series,
      alookup (analyze_by_time oracle now [] kws tf).2.1 (fetchKey kws tf "KR") =
        some (Payload.series D, now) := by
    cases hdf : (processResponse resp).isEmpty with
    | true =>
        refine ⟨processResponse resp, ?_⟩
        simp [analyze_by_time, hf, hdf, save_to_cache, pyDictSet, alookup]
    | false =>
        refine ⟨addTimeCols (processResponse resp), ?_⟩
        simp [analyze_by_time, hf, hdf, save_to_cache, pyDictSet, cacheMutate, alookup]
  obtain ⟨D, hD⟩ := hc1
  have hfresh : get_from_cache (analyze_by_time oracle now [] kws tf).2.1
      (fetchKey kws tf "KR") now2 = some (Payload.series D) := by
    simp [get_from_cache, hD, hlt]
  have habt2 : ∀ c1 : Cache,
      get_from_cache c1 (fetchKey kws tf "KR") now2 = some (Payload.series D) →
      (analyze_by_time oracle now2 c1 kws tf).2.2 = [] := by
    intro c1 h1
    have hf2 := fetch_hit oracle now2 c1 kws tf "KR" (Payload.series D) h1
    cases hdf2 : D.isEmpty with
    | true => simp [analyze_by_time, hf2, Payload.toSeries, hdf2]
    | false => simp [analyze_by_time, hf2, Payload.toSeries, hdf2]
  exact habt2 _ hfresh

/-- C1 is false on the code: `analyze_by_category` computes no fingerprint
of its own — with a failing adapter and a cold cache it stores nothing at
all (so there is no entry to hit), and a second call with identical
arguments at the same instant (well within TTL) performs a further external
call and sleep beyond those of the first call. -/
theorem C1_counterexample :
    (analyze_by_category oracleFail 0 [] cfgA "today 3-m").2.1 = []
    ∧ (analyze_by_category oracleFail 0 [] cfgA "today 3-m").2.2 =
        [Effect.sleep 500, Effect.externalCall ["A"] "today 3-m" "KR"]
    ∧ (analyze_by_category oracleFail 0
          (analyze_by_category oracleFail 0 [] cfgA "today 3-m").2.1
          cfgA "today 3-m").2.2 =
        [Effect.sleep 500, Effect.externalCall ["A"] "today 3-m" "KR"] := by
  decide

/-- C1 (amended): only the two weight operations compute an operation-level
fingerprint, consult the cache under it and store their result there before
returning; `get_top_keywords` computes no fingerprint of its own but is
cached through its callee `get_keyword_weights`'s `('weights', timeframe)`
operation fingerprint, while `analyze_by_category` and the time-grouped
analyses are cached only through `fetch_trends_data`'s per-fetch
fingerprints.  Consequently, starting from a cold cache, a second call with
identical arguments within the TTL performs no external call and no sleep:
unconditionally — for an arbitrary adapter, failing ones included — for the
two weight operations and the ranking, and provided the first call's
external fetches succeeded for the category analysis and the time-grouped
analyses. -/
theorem C1_caching_structure (oracle : Oracle) (now now2 : Nat) (cfg : Config)
    (tf : String) (category : Option String) (kws : List String) (days n : Nat)
    (hlt : now2 - now < cacheDuration) :
    alookup (get_keyword_weights oracle now [] cfg tf).2.1 (weightsKey tf) =
        some (Payload.weights (get_keyword_weights oracle now [] cfg tf).1, now)
    ∧ (get_keyword_weights oracle now2
        (get_keyword_weights oracle now [] cfg tf).2.1 cfg tf).2.2 = []
    ∧ alookup (get_detailed_keyword_weights oracle now [] cfg tf category).2.1
        (detailedKey tf category) =
        some (Payload.weights
          (get_detailed_keyword_weights oracle now [] cfg tf category).1, now)
    ∧ (get_detailed_keyword_weights oracle now2
        (get_detailed_keyword_weights oracle now [] cfg tf category).2.1
        cfg tf category).2.2 = []
    ∧ (get_top_keywords oracle now2
        (get_top_keywords oracle now [] cfg n tf).2.1 cfg n tf).2.2 = []
    ∧ (∀ e ∈ (analyze_by_category oracle now [] cfg tf).2.1,
        ∃ c : String, e.1 = fetchKey [c] tf "KR")
    ∧ ((∀ cat ∈ cfg.PRODUCT_CATEGORIES, (oracle [cat] tf "KR").isSome) →
        (analyze_by_category oracle now2
          (analyze_by_category oracle now [] cfg tf).2.1 cfg tf).2.2 = [])
    ∧ ((oracle (kws.take 5) ("now " ++ toString days ++ "-d") "KR").isSome →
        (get_hourly_analysis oracle now2
          (get_hourly_analysis oracle now [] kws days).2.1 kws days).2.2 = [])
    ∧ ((oracle (kws.take 5) "today 3-m" "KR").isSome →
        (get_weekly_analysis oracle now2
          (get_weekly_analysis oracle now [] kws).2.1 kws).2.2 = []) := by
  -- the proxy-mode weights store their result under their own fingerprint
  have hw1 : get_keyword_weights oracle now [] cfg tf =
      ((gkwLoop oracle now cfg tf cfg.PRODUCT_CATEGORIES [] [] []).1,
       save_to_cache (gkwLoop oracle now cfg tf cfg.PRODUCT_CATEGORIES [] [] []).2.1
         (weightsKey tf)
         (Payload.weights
           (gkwLoop oracle now cfg tf cfg.PRODUCT_CATEGORIES [] [] []).1) now,
       (gkwLoop oracle now cfg tf cfg.PRODUCT_CATEGORIES [] [] []).2.2) := by
    simp [get_keyword_weights, get_from_cache, alookup]
  have hwstore : alookup (get_keyword_weights oracle now [] cfg tf).2.1
      (weightsKey tf) =
      some (Payload.weights (get_keyword_weights oracle now [] cfg tf).1, now) := by
    rw [hw1, save_to_cache]
    exact alookup_pyDictSet_self _ _ _
  have hwsecond : ∀ c1 : Cache,
      (∃ w : List (String × Rat),
        alookup c1 (weightsKey tf) = some (Payload.weights w, now)) →
      (get_keyword_weights oracle now2 c1 cfg tf).2.2 = [] := by
    intro c1 hww
    obtain ⟨w, hww⟩ := hww
    have hfresh : get_from_cache c1 (weightsKey tf) now2 =
        some (Payload.weights w) := by
      simp [get_from_cache, hww, hlt]
    simp [get_keyword_weights, hfresh]
  -- the exact-mode weights store their result under their own fingerprint
  have hd1 : get_detailed_keyword_weights oracle now [] cfg tf category =
      ((gdkwCatLoop oracle now cfg tf (categoriesToAnalyze cfg category) [] [] []).1,
       save_to_cache
         (gdkwCatLoop oracle now cfg tf (categoriesToAnalyze cfg category) [] [] []).2.1
         (detailedKey tf category)
         (Payload.weights
           (gdkwCatLoop oracle now cfg tf (categoriesToAnalyze cfg category)
             [] [] []).1) now,
       (gdkwCatLoop oracle now cfg tf (categoriesToAnalyze cfg category)
         [] [] []).2.2) := by
    simp [get_detailed_keyword_weights, get_from_cache, alookup]
  have hdstore : alookup
      (get_detailed_keyword_weights oracle now [] cfg tf category).2.1
      (detailedKey tf category) =
      some (Payload.weights
        (get_detailed_keyword_weights oracle now [] cfg tf category).1, now) := by
    rw [hd1, save_to_cache]
    exact alookup_pyDictSet_self _ _ _
  have hdsecond : ∀ c1 : Cache,
      (∃ w : List (String × Rat),
        alookup c1 (detailedKey tf category) = some (Payload.weights w, now)) →
      (get_detailed_keyword_weights oracle now2 c1 cfg tf category).2.2 = [] := by
    intro c1 hww
    obtain ⟨w, hww⟩ := hww
    have hfresh : get_from_cache c1 (detailedKey tf category) now2 =
        some (Payload.weights w) := by
      simp [get_from_cache, hww, hlt]
    simp [get_detailed_keyword_weights, hfresh]
  -- the category analysis populates only singleton fetch fingerprints
  obtain ⟨habci, _, habcpop⟩ :=
    abcLoop_populates oracle now tf cfg.PRODUCT_CATEGORIES [] [] []
      (fun e he => absurd he (List.not_mem_nil e))
  have habc2 : (∀ cat ∈ cfg.PRODUCT_CATEGORIES, (oracle [cat] tf "KR").isSome) →
      (analyze_by_category oracle now2
        (analyze_by_category oracle now [] cfg tf).2.1 cfg tf).2.2 = [] := by
    intro habc
    refine (abcLoop_all_hit oracle now2 tf cfg.PRODUCT_CATEGORIES []
      (analyze_by_category oracle now [] cfg tf).2.1 [] ?_).2
    intro cat hcat
    exact get_from_cache_isSome_of_fresh _ _ now now2
      (fun e he => (habci e he).2) hlt (habcpop cat hcat (habc cat hcat))
  -- the time-grouped analyses pass their cache through analyze_by_time
  have hh1 : (get_hourly_analysis oracle now [] kws days).2.1 =
      (analyze_by_time oracle now [] kws ("now " ++ toString days ++ "-d")).2.1 := by
    simp only [get_hourly_analysis]
    cases hdf : (analyze_by_time oracle now [] kws
        ("now " ++ toString days ++ "-d")).1.isEmpty <;> simp [hdf]
  have hh2 : ∀ c1 : Cache, (get_hourly_analysis oracle now2 c1 kws days).2.2 =
      (analyze_by_time oracle now2 c1 kws ("now " ++ toString days ++ "-d")).2.2 := by
    intro c1
    simp only [get_hourly_analysis]
    cases hdf : (analyze_by_time oracle now2 c1 kws
        ("now " ++ toString days ++ "-d")).1.isEmpty <;> simp [hdf]
  have hwk1 : (get_weekly_analysis oracle now [] kws).2.1 =
      (analyze_by_time oracle now [] kws "today 3-m").2.1 := by
    simp only [get_weekly_analysis]
    cases hdf : (analyze_by_time oracle now [] kws "today 3-m").1.isEmpty <;>
      simp [hdf]
  have hwk2 : ∀ c1 : Cache, (get_weekly_analysis oracle now2 c1 kws).2.2 =
      (analyze_by_time oracle now2 c1 kws "today 3-m").2.2 := by
    intro c1
    simp only [get_weekly_analysis]
    cases hdf : (analyze_by_time oracle now2 c1 kws "today 3-m").1.isEmpty <;>
      simp [hdf]
  refine ⟨hwstore, ?_, hdstore, ?_, ?_, ?_, habc2, ?_, ?_⟩
  · exact hwsecond _ ⟨_, hwstore⟩
  · exact hdsecond _ ⟨_, hdstore⟩
  · have ht1 : (get_top_keywords oracle now [] cfg n tf).2.1 =
        (get_keyword_weights oracle now [] cfg tf).2.1 := rfl
    have ht2 : (get_top_keywords oracle now2
        (get_keyword_weights oracle now [] cfg tf).2.1 cfg n tf).2.2 =
        (get_keyword_weights oracle now2
          (get_keyword_weights oracle now [] cfg tf).2.1 cfg tf).2.2 := rfl
    rw [ht1, ht2]
    exact hwsecond _ ⟨_, hwstore⟩
  · intro e he
    exact (habci e he).1
  · intro hh
    rw [hh2, hh1]
    exact abt_second_effects oracle now now2 kws _ hlt hh
  · intro hwk
    rw [hwk2, hwk1]
    exact abt_second_effects oracle now now2 kws _ hlt hwk

/-- Witness for the amended C1: with a totally failing adapter, repeats of
the two weight operations and of the ranking at time 3599 are already
effect-free (their first calls cached their results under the operation
fingerprints even though every fetch failed), while with a succeeding
adapter the repeated category and hourly analyses are effect-free too. -/
theorem C1_caching_structure_witness :
    (get_keyword_weights oracleFail 3599
        (get_keyword_weights oracleFail 0 [] cfgA "today 3-m").2.1
        cfgA "today 3-m").2.2 = []
    ∧ (get_detailed_keyword_weights oracleFail 3599
        (get_detailed_keyword_weights oracleFail 0 [] cfgA "today 3-m" none).2.1
        cfgA "today 3-m" none).2.2 = []
    ∧ (get_top_keywords oracleFail 3599
        (get_top_keywords oracleFail 0 [] cfgA 2 "today 3-m").2.1
        cfgA 2 "today 3-m").2.2 = []
    ∧ (analyze_by_category oracleAX 3599
        (analyze_by_category oracleAX 0 [] cfgA "today 3-m").2.1
        cfgA "today 3-m").2.2 = []
    ∧ (get_hourly_analysis oracleAX 3599
        (get_hourly_analysis oracleAX 0 [] ["x"] 7).2.1 ["x"] 7).2.2 = [] :=
  ⟨(C1_caching_structure oracleFail 0 3599 cfgA "today 3-m" none ["x"] 7 2
      (by decide)).2.1,
   (C1_caching_structure oracleFail 0 3599 cfgA "today 3-m" none ["x"] 7 2
      (by decide)).2.2.2.1,
   (C1_caching_structure oracleFail 0 3599 cfgA "today 3-m" none ["x"] 7 2
      (by decide)).2.2.2.2.1,
   (C1_caching_structure oracleAX 0 3599 cfgA "today 3-m" none ["x"] 7 2
      (by decide)).2.2.2.2.2.2.1 (by decide),
   (C1_caching_structure oracleAX 0 3599 cfgA "today 3-m" none ["x"] 7 2
      (by decide)).2.2.2.2.2.2.2.1 (by decide)⟩

end Trends
